import Mathlib

/-!
# Four-LED memory game for the MSP430: shallow embedding of `4led_memory_game.c`

The C program is single-threaded and talks to memory-mapped hardware only.  It is
embedded here by explicit state passing:

* `Env` is what the outside world supplies: the levels of the three input ports and
  the two free-running counters at every instant, and the words that lie in memory
  behind the 16-element `sequence` array.
* `Hw` is the state the program changes: simulated time, timer A0 (counter, compare
  register, overflow flag `TAIFG`), the three output ports, and four ghost traces
  that record what the program did (LED writes and waits, comparisons made by
  `GetAnswer`, buttons found by `ChooseDifficulty`, calls made by `main`).

Simulated time is counted in clocks of timer A0.  Timer A0 runs in up mode: it counts
`0, 1, ..., TA0CCR0, 0, ...` and sets `TAIFG` on the step back to zero, so one timer
period (the "10 ms" of the program) is `TA0CCR0 + 1` clocks.  Every pass of a polling
loop (`Wait`, `Reset`, `ChooseDifficulty`, `GetAnswer`) lets one clock go by and then
runs the loop body; everything else takes no time.

`int` is 16 bits wide on the MSP430.  The counter `i` of `Wait` is an integer that
wraps around at 32768 (`incr16`); the counters `i`, `x`, `round` of the other functions
stay below 20 and are natural numbers here; the two samples are converted to `int` by
`toInt16` and shifted arithmetically.
-/

namespace MemoryGame

/-! ## Constants of the program -/

def RED_LED : Nat := 0x40
def GREEN_LED : Nat := 0x08
def BLUE_LED : Nat := 0x40
def YELLOW_LED : Nat := 0x80

def RED_BTN : Nat := 0x08
def GREEN_BTN : Nat := 0x02
def BLUE_BTN : Nat := 0x01
def YELLOW_BTN : Nat := 0x08

def TEN_MS : Int := 1
def CENTI_SEC : Int := 10
def QUART_SEC : Int := 25
def HALF_SEC : Int := 50
def ONE_SEC : Int := 100
def BLINK : Int := 20
def PAUSE : Int := 30

def P9_GREEN_LED : Nat := 0x80

def EASY : Nat := 8
def NORMAL : Nat := 10
def HARD : Nat := 12
def EXTREME : Nat := 16

/-! ## Hardware model -/

/-- The five LEDs: red and green on port 3, blue and yellow on port 2, the on-board
green LED on port 9. -/
inductive Led
  | RED | GREEN | BLUE | YELLOW | P9_GREEN
  deriving DecidableEq, Repr

/-- The four push buttons. -/
inductive Btn
  | RED | GREEN | BLUE | YELLOW
  deriving DecidableEq, Repr

/-- The three output registers the program writes to. -/
inductive Reg
  | P2OUT | P3OUT | P9OUT
  deriving DecidableEq, Repr

/-- Entry of the output trace: the value `v` is written to the output register `r`, or
`Wait` is called with argument `t`. -/
inductive Out
  | write (r : Reg) (v : Nat)
  | wait (t : Int)
  deriving DecidableEq, Repr

/-- Ghost trace entry of `GetAnswer`: button `btn` was found depressed at time `time`
and `sequence[index]` was compared with the colour code `colour`. -/
structure Cmp where
  btn : Btn
  colour : Int
  index : Nat
  time : Nat
  deriving DecidableEq, Repr

/-- Ghost trace entry of `ChooseDifficulty`: button `btn` was found depressed at
time `time`. -/
structure Pick where
  btn : Btn
  time : Nat
  deriving DecidableEq, Repr

/-- Ghost trace entry of `main`: a call made from the game loop. -/
inductive Call
  | BlinkLeds (round : Nat)
  | GetAnswer (round : Nat)
  | CorrectAnswer
  | Win
  | Loss
  deriving DecidableEq, Repr

/-- What the world supplies at each instant of simulated time. -/
structure Env where
  /-- Input register of port 1 (yellow button, active low). -/
  P1IN : Nat → Nat
  /-- Input register of port 2 (red button, active low). -/
  P2IN : Nat → Nat
  /-- Input register of port 3 (green and blue buttons, active low). -/
  P3IN : Nat → Nat
  /-- Free-running counter of timer A1. -/
  TA1R : Nat → Nat
  /-- Free-running counter of timer A2. -/
  TA2R : Nat → Nat
  /-- The word found at `sequence + i` for an index past the end of the array. -/
  beyond : Nat → Int

/-- The state the program acts on. -/
structure Hw where
  /-- Simulated time, in clocks of timer A0. -/
  now : Nat
  TA0CCR0 : Nat
  TA0R : Nat
  TAIFG : Bool
  P2OUT : Nat
  P3OUT : Nat
  P9OUT : Nat
  out : List Out
  cmps : List Cmp
  picks : List Pick
  calls : List Call
  deriving DecidableEq, Repr

/-- Loop state of `GetAnswer`. -/
structure Ans where
  hw : Hw
  i : Nat
  game_over : Nat
  deriving DecidableEq, Repr

/-- Loop state of `ChooseDifficulty`. -/
structure Sel where
  hw : Hw
  x : Nat
  deriving DecidableEq, Repr

/-- Loop state of the game loop of `main`. -/
structure Play where
  hw : Hw
  game_state : Nat
  round : Nat
  deriving DecidableEq, Repr

/-- One clock of timer A0 in up mode: the counter goes from `TA0CCR0` back to zero and
sets the overflow flag, otherwise it counts up. -/
def tick (hw : Hw) : Hw :=
  if hw.TA0CCR0 ≤ hw.TA0R then { hw with now := hw.now + 1, TA0R := 0, TAIFG := true }
  else { hw with now := hw.now + 1, TA0R := hw.TA0R + 1 }

/-- The number of clocks in one period of timer A0 (10 ms on the board). -/
def period (hw : Hw) : Nat := hw.TA0CCR0 + 1

/-- Clearing the bits of `mask` in an 8-bit port register: `port &= ~mask`. -/
def bic (port mask : Nat) : Nat := port &&& (0xFF ^^^ mask)

/-- The value an output register holds. -/
def regVal (hw : Hw) : Reg → Nat
  | .P2OUT => hw.P2OUT
  | .P3OUT => hw.P3OUT
  | .P9OUT => hw.P9OUT

/-- Ghost: record in the output trace the value that register `r` holds, read back
from the register after a write to it. -/
def logWrite (r : Reg) (hw : Hw) : Hw :=
  { hw with out := hw.out ++ [Out.write r (regVal hw r)] }

/-- Statement `PxOUT |= led`. -/
def ledOn : Led → Hw → Hw
  | .RED, hw => logWrite .P3OUT { hw with P3OUT := hw.P3OUT ||| RED_LED }
  | .GREEN, hw => logWrite .P3OUT { hw with P3OUT := hw.P3OUT ||| GREEN_LED }
  | .BLUE, hw => logWrite .P2OUT { hw with P2OUT := hw.P2OUT ||| BLUE_LED }
  | .YELLOW, hw => logWrite .P2OUT { hw with P2OUT := hw.P2OUT ||| YELLOW_LED }
  | .P9_GREEN, hw => logWrite .P9OUT { hw with P9OUT := hw.P9OUT ||| P9_GREEN_LED }

/-- Statement `PxOUT &= (~led)`. -/
def ledOff : Led → Hw → Hw
  | .RED, hw => logWrite .P3OUT { hw with P3OUT := bic hw.P3OUT RED_LED }
  | .GREEN, hw => logWrite .P3OUT { hw with P3OUT := bic hw.P3OUT GREEN_LED }
  | .BLUE, hw => logWrite .P2OUT { hw with P2OUT := bic hw.P2OUT BLUE_LED }
  | .YELLOW, hw => logWrite .P2OUT { hw with P2OUT := bic hw.P2OUT YELLOW_LED }
  | .P9_GREEN, hw => logWrite .P9OUT { hw with P9OUT := bic hw.P9OUT P9_GREEN_LED }

/-- Statement `PxOUT = (PxOUT ^ led)`. -/
def ledToggle : Led → Hw → Hw
  | .RED, hw => logWrite .P3OUT { hw with P3OUT := hw.P3OUT ^^^ RED_LED }
  | .GREEN, hw => logWrite .P3OUT { hw with P3OUT := hw.P3OUT ^^^ GREEN_LED }
  | .BLUE, hw => logWrite .P2OUT { hw with P2OUT := hw.P2OUT ^^^ BLUE_LED }
  | .YELLOW, hw => logWrite .P2OUT { hw with P2OUT := hw.P2OUT ^^^ YELLOW_LED }
  | .P9_GREEN, hw => logWrite .P9OUT { hw with P9OUT := hw.P9OUT ^^^ P9_GREEN_LED }

/-- The output register that drives an LED. -/
def regOf : Led → Reg
  | .RED => .P3OUT
  | .GREEN => .P3OUT
  | .BLUE => .P2OUT
  | .YELLOW => .P2OUT
  | .P9_GREEN => .P9OUT

/-- The bit of an LED in its output register. -/
def maskOf : Led → Nat
  | .RED => RED_LED
  | .GREEN => GREEN_LED
  | .BLUE => BLUE_LED
  | .YELLOW => YELLOW_LED
  | .P9_GREEN => P9_GREEN_LED

/-- Whether the line of an LED is low in the output registers. -/
def isOff (hw : Hw) : Led → Prop
  | .RED => hw.P3OUT &&& RED_LED = 0
  | .GREEN => hw.P3OUT &&& GREEN_LED = 0
  | .BLUE => hw.P2OUT &&& BLUE_LED = 0
  | .YELLOW => hw.P2OUT &&& YELLOW_LED = 0
  | .P9_GREEN => hw.P9OUT &&& P9_GREEN_LED = 0

/-- Whether the line of a button reads 0 (button depressed) at time `t`. -/
def down (env : Env) (t : Nat) : Btn → Prop
  | .RED => env.P2IN t &&& RED_BTN = 0
  | .GREEN => env.P3IN t &&& GREEN_BTN = 0
  | .BLUE => env.P3IN t &&& BLUE_BTN = 0
  | .YELLOW => env.P1IN t &&& YELLOW_BTN = 0

/-- A continuous depression of button `b` that begins at time `a` and is released at
time `r`: the line of the button reads 0 at every time from `a` to `r - 1`, and reads
1 at time `r`. -/
def depression (env : Env) (b : Btn) (a r : Nat) : Prop :=
  a < r ∧ (∀ t, a ≤ t → t < r → down env t b) ∧ ¬ down env r b

/-! ## `Wait` (lines 307-320) -/

/-- The statement `i++` on a 16-bit `int`, with the two's complement wrap-around of the
MSP430. -/
def incr16 (i : Int) : Int := if i + 1 < 32768 then i + 1 else i + 1 - 65536

/-- The loop `while (i <= t) { if (TA0CTL & TAIFG) { i++; TA0CTL &= (~TAIFG); } }`,
run for at most `polls` passes.  Returns the state and the counter `i`. -/
def WaitLoop : Nat → Hw → Int → Int → Hw × Int
  | 0, hw, i, _ => (hw, i)
  | polls + 1, hw, i, t =>
    if i ≤ t then
      let hw := tick hw
      if hw.TAIFG then WaitLoop polls { hw with TAIFG := false } (incr16 i) t
      else WaitLoop polls hw i t
    else (hw, i)

/-- A number of passes that the loop of `Wait t` never needs in full when
`0 ≤ t < 32767` (`WaitLoop_spec` below): at most `t + 1` timer periods go by. -/
def waitPolls (hw : Hw) (t : Int) : Nat := (t.toNat + 2) * period hw

/-- `void Wait(int t)`. -/
def Wait (hw : Hw) (t : Int) : Hw :=
  (WaitLoop (waitPolls hw t) { hw with out := hw.out ++ [Out.wait t] } 0 t).1

/-! ## `MakeSequence` (lines 282-298) -/

/-- Conversion of a 16-bit counter value to `int` (two's complement). -/
def toInt16 (n : Nat) : Int :=
  if n % 65536 < 32768 then ((n % 65536 : Nat) : Int) else ((n % 65536 : Nat) : Int) - 65536

/-- `void MakeSequence(int sequence[16], int first_number, int second_number)`;
returns the array `sequence` as it is left by the call.  The first loop fills the two
local arrays, the second loop fills `sequence`. -/
def MakeSequence (sequence : List Int) (first_number second_number : Int) : List Int :=
  let first_array : List Int := List.replicate 16 0
  let second_array : List Int := List.replicate 16 0
  let arrays := (List.range 16).foldl
    (fun (a : List Int × List Int) i =>
      (a.1.set (15 - i) (Int.land (Int.shiftRight first_number i) 0x01),
        a.2.set (15 - i) (Int.land (Int.shiftRight second_number i) 0x01)))
    (first_array, second_array)
  (List.range 16).foldl
    (fun seq i => seq.set i (arrays.1.getD i 0 + arrays.2.getD i 0 * 3)) sequence

/-- Lines 126-127 of `main`: `int sequence[16] = {0.0};` and
`MakeSequence(sequence, first_number, second_number);` for the two counter samples. -/
def buildSequence (first second : Nat) : List Int :=
  MakeSequence (List.replicate 16 0) (toInt16 first) (toInt16 second)

/-- The read `sequence[i]`: the element of the 16-element array, or, past its end,
the word that lies there in memory. -/
def readSeq (env : Env) (sequence : List Int) (i : Nat) : Int :=
  match sequence[i]? with
  | some v => v
  | none => env.beyond i

/-! ## `BlinkLeds` (lines 329-367) -/

/-- One case of the switch: LED on, `Wait(BLINK)`, LED off, `Wait(PAUSE)`. -/
def pulse (l : Led) (hw : Hw) : Hw :=
  Wait (ledOff l (Wait (ledOn l hw) BLINK)) PAUSE

/-- The statement `switch (sequence[i])`, which has no default case. -/
def blinkCase (v : Int) (hw : Hw) : Hw :=
  if v = 0 then pulse .RED hw
  else if v = 1 then pulse .GREEN hw
  else if v = 3 then pulse .BLUE hw
  else if v = 4 then pulse .YELLOW hw
  else hw

/-- The loop `do { switch ...; i = i + 1; } while (i <= round)`, run for at most
`passes` passes. -/
def BlinkLoop : Nat → Env → Hw → List Int → Nat → Nat → Hw
  | 0, _, hw, _, _, _ => hw
  | passes + 1, env, hw, sequence, i, round =>
    let hw := blinkCase (readSeq env sequence i) hw
    let i := i + 1
    if i ≤ round then BlinkLoop passes env hw sequence i round else hw

/-- `void BlinkLeds(int sequence[16], int round)`; the loop makes `round + 1` passes. -/
def BlinkLeds (env : Env) (hw : Hw) (sequence : List Int) (round : Nat) : Hw :=
  BlinkLoop (round + 1) env hw sequence 0 round

/-! ## `GetAnswer` (lines 375-421) -/

/-- Body of one `if (button depressed)`: compare `sequence[i]` with the colour code of
the button, then `Wait(QUART_SEC)`. -/
def answerBtn (env : Env) (sequence : List Int) (b : Btn) (code : Int) (s : Ans) : Ans :=
  let hw := { s.hw with cmps := s.hw.cmps ++ [⟨b, code, s.i, s.hw.now⟩] }
  if readSeq env sequence s.i = code then
    { hw := Wait hw QUART_SEC, i := s.i + 1, game_over := s.game_over }
  else
    { hw := Wait hw QUART_SEC, i := s.i, game_over := 1 }

/-- One pass of the `while` loop of `GetAnswer`: the four `if`s in sequence. -/
def answerPass (env : Env) (sequence : List Int) (s : Ans) : Ans :=
  let s := { s with hw := tick s.hw }
  let s := if env.P2IN s.hw.now &&& RED_BTN = 0 then answerBtn env sequence .RED 0 s else s
  let s := if env.P3IN s.hw.now &&& GREEN_BTN = 0 then answerBtn env sequence .GREEN 1 s else s
  let s := if env.P3IN s.hw.now &&& BLUE_BTN = 0 then answerBtn env sequence .BLUE 3 s else s
  if env.P1IN s.hw.now &&& YELLOW_BTN = 0 then answerBtn env sequence .YELLOW 4 s else s

/-- The loop `while (i <= round && game_over == 0)`, run for at most `n` passes. -/
def answerLoop : Nat → Env → List Int → Nat → Ans → Ans
  | 0, _, _, _, s => s
  | n + 1, env, sequence, round, s =>
    if s.i ≤ round ∧ s.game_over = 0 then
      answerLoop n env sequence round (answerPass env sequence s)
    else s

/-- `int GetAnswer(int sequence[16], int round)`, given `n` passes of its loop:
`none` when the loop has not ended by then. -/
def GetAnswer (n : Nat) (env : Env) (hw : Hw) (sequence : List Int) (round : Nat) :
    Option (Nat × Hw) :=
  let s := answerLoop n env sequence round ⟨hw, 0, 0⟩
  if s.i ≤ round ∧ s.game_over = 0 then none
  else if s.game_over = 0 then some (1, s.hw)
  else some (0, s.hw)

/-! ## `ChooseDifficulty` (lines 202-256) -/

/-- The loop `for (i = 0; i < 8; i++) { PxOUT = (PxOUT ^ led); Wait(CENTI_SEC); }`. -/
def confirm (l : Led) (hw : Hw) : Hw :=
  Nat.iterate (fun h => Wait (ledToggle l h) CENTI_SEC) 8 hw

/-- Statements `P3OUT |= GREEN_LED; P2OUT |= (BLUE_LED | YELLOW_LED);`. -/
def promptOn (hw : Hw) : Hw :=
  let hw := logWrite .P3OUT { hw with P3OUT := hw.P3OUT ||| GREEN_LED }
  logWrite .P2OUT { hw with P2OUT := hw.P2OUT ||| (BLUE_LED ||| YELLOW_LED) }

/-- Statements `P3OUT &= (~GREEN_LED); P2OUT &= (~(BLUE_LED | YELLOW_LED));`. -/
def promptOff (hw : Hw) : Hw :=
  let hw := logWrite .P3OUT { hw with P3OUT := bic hw.P3OUT GREEN_LED }
  logWrite .P2OUT { hw with P2OUT := bic hw.P2OUT (BLUE_LED ||| YELLOW_LED) }

/-- Body of one `if (button depressed)`: prompt off, `x = rounds`, eight toggles of
the LED of the button. -/
def chooseBtn (b : Btn) (l : Led) (rounds : Nat) (s : Sel) : Sel :=
  let hw := { s.hw with picks := s.hw.picks ++ [⟨b, s.hw.now⟩] }
  { hw := confirm l (promptOff hw), x := rounds }

/-- One pass of the `while` loop of `ChooseDifficulty`: the four `if`s in sequence. -/
def choosePass (env : Env) (s : Sel) : Sel :=
  let s := { s with hw := tick s.hw }
  let s := if env.P3IN s.hw.now &&& GREEN_BTN = 0 then chooseBtn .GREEN .GREEN 8 s else s
  let s := if env.P3IN s.hw.now &&& BLUE_BTN = 0 then chooseBtn .BLUE .BLUE 10 s else s
  let s := if env.P1IN s.hw.now &&& YELLOW_BTN = 0 then chooseBtn .YELLOW .YELLOW 12 s else s
  if env.P2IN s.hw.now &&& RED_BTN = 0 then chooseBtn .RED .RED 16 s else s

/-- The loop `while (x < 1)`, run for at most `n` passes. -/
def chooseLoop : Nat → Env → Sel → Sel
  | 0, _, s => s
  | n + 1, env, s => if s.x < 1 then chooseLoop n env (choosePass env s) else s

/-- `int ChooseDifficulty(void)`, given `n` passes of its loop: `none` when the loop
has not ended by then. -/
def ChooseDifficulty (n : Nat) (env : Env) (hw : Hw) : Option (Nat × Hw) :=
  let s := chooseLoop n env ⟨promptOn hw, 0⟩
  if s.x < 1 then none else some (s.x, s.hw)

/-- The number of rounds that goes with each button. -/
def roundsOf : Btn → Nat
  | .GREEN => EASY
  | .BLUE => NORMAL
  | .YELLOW => HARD
  | .RED => EXTREME

/-- The colour code of each button in the sequence: 0 red, 1 green, 3 blue, 4 yellow. -/
def codeOf : Btn → Int
  | .RED => 0
  | .GREEN => 1
  | .BLUE => 3
  | .YELLOW => 4

/-! ## `Reset`, `CorrectAnswer`, `Win`, `Loss` -/

/-- The loop `while (x < 1)` of `Reset`, run for at most `n` passes: `none` when the
red button has not been found depressed by then. -/
def resetLoop : Nat → Env → Hw → Option Hw
  | 0, _, _ => none
  | n + 1, env, hw =>
    let hw := tick hw
    if env.P2IN hw.now &&& RED_BTN = 0 then some (ledOff .RED hw) else resetLoop n env hw

/-- `void Reset(void)`. -/
def Reset (n : Nat) (env : Env) (hw : Hw) : Option Hw :=
  resetLoop n env (ledOn .RED hw)

/-- `void CorrectAnswer(void)`. -/
def CorrectAnswer (hw : Hw) : Hw :=
  Nat.iterate (fun h => Wait (ledToggle .P9_GREEN h) CENTI_SEC) 8 hw

/-- One LED of the win animation: on, `Wait(CENTI_SEC)`, off, `Wait(CENTI_SEC)`. -/
def flash (l : Led) (hw : Hw) : Hw :=
  Wait (ledOff l (Wait (ledOn l hw) CENTI_SEC)) CENTI_SEC

/-- `void Win(void)`. -/
def Win (hw : Hw) : Hw :=
  Nat.iterate (fun h => flash .YELLOW (flash .BLUE (flash .GREEN (flash .RED h)))) 3 hw

/-- `void Loss(void)`. -/
def Loss (hw : Hw) : Hw :=
  Wait (Nat.iterate (fun h => Wait (ledOff .RED (Wait (ledOn .RED h) HALF_SEC)) QUART_SEC) 3 hw)
    ONE_SEC

/-! ## `main` (lines 113-165) -/

/-- Ghost: record a call made by the game loop. -/
def call (c : Call) (hw : Hw) : Hw := { hw with calls := hw.calls ++ [c] }

/-- The state in which the game loop calls `GetAnswer` (lines 135-139): after
`Wait(ONE_SEC)`, `BlinkLeds(sequence, round)` and `Wait(TEN_MS)`. -/
def answerEntry (env : Env) (sequence : List Int) (p : Play) : Hw :=
  let hw := Wait p.hw ONE_SEC
  let hw := BlinkLeds env (call (.BlinkLeds p.round) hw) sequence p.round
  let hw := Wait hw TEN_MS
  call (.GetAnswer p.round) hw

/-- Body of the loop `while (game_state == 1)` (lines 134-153); `g` bounds the passes
of the loop inside `GetAnswer`. -/
def playPass (g : Nat) (env : Env) (sequence : List Int) (difficulty : Nat) (p : Play) :
    Option Play :=
  match GetAnswer g env (answerEntry env sequence p) sequence p.round with
  | none => none
  | some (game_state, hw) =>
    let hw := Wait hw TEN_MS
    let p1 : Play :=
      if game_state = 1 then ⟨CorrectAnswer (call .CorrectAnswer hw), game_state, p.round + 1⟩
      else ⟨hw, game_state, p.round⟩
    let hw := Wait p1.hw TEN_MS
    if p1.round = difficulty then some ⟨hw, 2, p1.round⟩
    else some ⟨hw, p1.game_state, p1.round⟩

/-- The loop `while (game_state == 1)`, run for at most `n` passes. -/
def playLoop : Nat → Nat → Env → List Int → Nat → Play → Option Play
  | 0, _, _, _, _, p => if p.game_state = 1 then none else some p
  | n + 1, g, env, sequence, difficulty, p =>
    if p.game_state = 1 then
      match playPass g env sequence difficulty p with
      | none => none
      | some p1 => playLoop n g env sequence difficulty p1
    else some p

/-- The state of the game loop after at most `m` passes of its body, entered in state
`p`: the loop stops when `game_state` is not 1, and a pass in which `GetAnswer` does not
return leaves the state where it was. -/
def playPasses (g : Nat) (env : Env) (sequence : List Int) (difficulty : Nat) :
    Nat → Play → Play
  | 0, p => p
  | m + 1, p =>
    let q := playPasses g env sequence difficulty m p
    if q.game_state = 1 then (playPass g env sequence difficulty q).getD q else q

/-- Lines 155-164 of `main`: `if (game_state == 2) Win(); else Loss();`. -/
def endGame (p : Play) : Hw :=
  if p.game_state = 2 then Win (call .Win p.hw) else Loss (call .Loss p.hw)

/-- The game loop entered in state `p`, and the win or loss animation after it. -/
def playFrom (n g : Nat) (env : Env) (sequence : List Int) (difficulty : Nat) (p : Play) :
    Option Hw :=
  (playLoop n g env sequence difficulty p).map endGame

/-- Lines 130-164 of `main`: `game_state = 1`, `round = 0`, the game loop and the
animation after it. -/
def playGame (n g : Nat) (env : Env) (hw : Hw) (sequence : List Int) (difficulty : Nat) :
    Option Hw :=
  playFrom n g env sequence difficulty ⟨hw, 1, 0⟩

/-- One pass of the loop `while(1)` of `main` (lines 116-164): one whole game.  `n`
bounds the passes of every polling loop and of the game loop. -/
def mainGame (n : Nat) (env : Env) (hw : Hw) : Option Hw :=
  match Reset n env hw with
  | none => none
  | some hw =>
    let first_number := env.TA1R hw.now
    let hw := Wait hw QUART_SEC
    match ChooseDifficulty n env hw with
    | none => none
    | some (difficulty, hw) =>
      let second_number := env.TA2R hw.now
      let sequence := buildSequence first_number second_number
      playGame n n env hw sequence difficulty

/-- The state after the set-up statements of `main` (lines 89-110) on a board that has
just been reset: timer A0 counts up to 400 with its flag clear, and the output
registers hold the pull-up bits of the buttons that lines 107 and 109 set
(`P2OUT = RED_BTN`, `P3OUT = GREEN_BTN | BLUE_BTN`); all LEDs are off.  Port 1, which
has no LED, is not part of the state. -/
def boot : Hw :=
  { now := 0, TA0CCR0 := 400, TA0R := 0, TAIFG := false, P2OUT := 0x08, P3OUT := 0x03,
    P9OUT := 0, out := [], cmps := [], picks := [], calls := [] }

/-- The place of each button in the pass of `GetAnswer`: red, green, blue, yellow. -/
def scanRank : Btn → Nat
  | .RED => 0
  | .GREEN => 1
  | .BLUE => 2
  | .YELLOW => 3

/-- The LED that `BlinkLeds` drives for a colour code: 0 red, 1 green, 3 blue,
4 yellow; no LED for any other value. -/
def ledOf (v : Int) : Option Led :=
  if v = 0 then some .RED
  else if v = 1 then some .GREEN
  else if v = 3 then some .BLUE
  else if v = 4 then some .YELLOW
  else none

/-- The colour that bit `15 - j` of the first sample and bit `15 - j` of the second
sample select for place `j` of the sequence: red for 0 and 0, green for 1 and 0, blue
for 0 and 1, yellow for 1 and 1. -/
def colourAt (f s j : Nat) : Led :=
  if (s >>> (15 - j)) &&& 1 = 0 then
    (if (f >>> (15 - j)) &&& 1 = 0 then .RED else .GREEN)
  else
    (if (f >>> (15 - j)) &&& 1 = 0 then .BLUE else .YELLOW)

/-- The output trace of one pulse of the LED `l` whose register holds `v`: the register
is written with the bit of the LED set, `Wait(BLINK)`, the register is written with the
bit cleared, `Wait(PAUSE)`. -/
def pulseTrace (l : Led) (v : Nat) : List Out :=
  [Out.write (regOf l) (v ||| maskOf l), Out.wait BLINK,
    Out.write (regOf l) ((v ||| maskOf l) &&& (0xFF ^^^ maskOf l)), Out.wait PAUSE]

/-- The output trace of the pulses of the LEDs `ls`, in this order, when `P2OUT` holds
`p2` and `P3OUT` holds `p3` before the first of them. -/
def pulsesTrace : List Led → Nat → Nat → List Out
  | [], _, _ => []
  | l :: ls, p2, p3 =>
    match regOf l with
    | .P3OUT => pulseTrace l p3 ++ pulsesTrace ls p2 ((p3 ||| maskOf l) &&& (0xFF ^^^ maskOf l))
    | .P2OUT => pulseTrace l p2 ++ pulsesTrace ls ((p2 ||| maskOf l) &&& (0xFF ^^^ maskOf l)) p3
    | .P9OUT => pulsesTrace ls p2 p3

/-- The output trace of `k` toggles of the bits `m` of register `r`, which holds `v`,
each followed by `Wait(CENTI_SEC)`. -/
def toggleTrace (r : Reg) (m : Nat) : Nat → Nat → List Out
  | 0, _ => []
  | k + 1, v => Out.write r (v ^^^ m) :: Out.wait CENTI_SEC :: toggleTrace r m k (v ^^^ m)

/-- The LED in front of each button. -/
def ledOfBtn : Btn → Led
  | .RED => .RED
  | .GREEN => .GREEN
  | .BLUE => .BLUE
  | .YELLOW => .YELLOW

/-- The output trace of the confirmation of one button in `ChooseDifficulty`, when the
registers hold `q2` and `q3` with the three prompt LEDs off: both registers are written
with the prompt LEDs off, then the LED of the button is toggled eight times. -/
def confirmTrace (q2 q3 : Nat) (b : Btn) : List Out :=
  [Out.write .P3OUT q3, Out.write .P2OUT q2]
    ++ toggleTrace (regOf (ledOfBtn b)) (maskOf (ledOfBtn b)) 8
        (match regOf (ledOfBtn b) with
          | .P3OUT => q3
          | .P2OUT => q2
          | .P9OUT => 0)

/-- The calls made by `m` rounds that were answered correctly: rounds `0` to `m - 1`,
each with its playback, its answer and the confirmation. -/
def roundCalls : Nat → List Call
  | 0 => []
  | m + 1 => roundCalls m ++ [Call.BlinkLeds m, Call.GetAnswer m, Call.CorrectAnswer]

/-! ## Concrete boards and button traces -/

/-- A board whose timer A0 overflows at every clock (`TA0CCR0 = 0`). -/
def fastBoard : Hw := { boot with TA0CCR0 := 0 }

/-- A board with a timer period of 10 clocks, caught half-way through a period with the
overflow flag still set from an earlier overflow. -/
def staleFlag : Hw := { boot with TA0CCR0 := 9, TA0R := 5, TAIFG := true }

/-- Button lines held at fixed levels for all time. -/
def held (p1 p2 p3 : Nat) : Env :=
  ⟨fun _ => p1, fun _ => p2, fun _ => p3, fun _ => 0, fun _ => 0, fun _ => 0⟩

/-- Only the green button held down. -/
def greenHeld : Env := held 0x08 0x08 0x01

/-- Only the red button held down. -/
def redHeld : Env := held 0x08 0x00 0x03

/-- The green and the blue button held down together. -/
def greenBlueHeld : Env := held 0x08 0x08 0x00

/-- The red and the green button held down together. -/
def redGreenHeld : Env := held 0x08 0x00 0x01

/-- The red button held down, the green button pressed as well from time 410 on. -/
def lateGreen : Env :=
  ⟨fun _ => 0x08, fun _ => 0x00, fun t => if 410 ≤ t then 0x01 else 0x03,
    fun _ => 0, fun _ => 0, fun _ => 0⟩

/-- The red button pressed at time 0 and released at time 40; no other button. -/
def longPress : Env :=
  ⟨fun _ => 0x08, fun t => if t < 40 then 0x00 else 0x08, fun _ => 0x03,
    fun _ => 0, fun _ => 0, fun _ => 0⟩

/-- The red button pressed at time 0 and released at time 20; no other button. -/
def shortPress : Env :=
  ⟨fun _ => 0x08, fun t => if t < 20 then 0x00 else 0x08, fun _ => 0x03,
    fun _ => 0, fun _ => 0, fun _ => 0⟩

/-- The sequence built from the samples 0 and 0: sixteen times red. -/
def allRed : List Int := buildSequence 0 0

/-- The sequence built from the samples 0x4000 and 0: red, green, then red. -/
def redGreenRed : List Int := buildSequence 0x4000 0

/-- The state in which `ChooseDifficulty` returns on `fastBoard` with the green button
held. -/
def easyChosen : Hw := ((ChooseDifficulty 1 greenHeld fastBoard).getD (0, fastBoard)).2

/-- The state in which `ChooseDifficulty` returns on `fastBoard` with the red button
held. -/
def extremeChosen : Hw := ((ChooseDifficulty 1 redHeld fastBoard).getD (0, fastBoard)).2

set_option maxRecDepth 100000

/-! ## The output trace -/

@[simp] theorem logWrite_now (r : Reg) (hw : Hw) : (logWrite r hw).now = hw.now := rfl

@[simp] theorem logWrite_TA0CCR0 (r : Reg) (hw : Hw) : (logWrite r hw).TA0CCR0 = hw.TA0CCR0 := rfl

@[simp] theorem logWrite_TA0R (r : Reg) (hw : Hw) : (logWrite r hw).TA0R = hw.TA0R := rfl

@[simp] theorem logWrite_TAIFG (r : Reg) (hw : Hw) : (logWrite r hw).TAIFG = hw.TAIFG := rfl

@[simp] theorem logWrite_P2OUT (r : Reg) (hw : Hw) : (logWrite r hw).P2OUT = hw.P2OUT := rfl

@[simp] theorem logWrite_P3OUT (r : Reg) (hw : Hw) : (logWrite r hw).P3OUT = hw.P3OUT := rfl

@[simp] theorem logWrite_P9OUT (r : Reg) (hw : Hw) : (logWrite r hw).P9OUT = hw.P9OUT := rfl

@[simp] theorem logWrite_cmps (r : Reg) (hw : Hw) : (logWrite r hw).cmps = hw.cmps := rfl

@[simp] theorem logWrite_picks (r : Reg) (hw : Hw) : (logWrite r hw).picks = hw.picks := rfl

@[simp] theorem logWrite_calls (r : Reg) (hw : Hw) : (logWrite r hw).calls = hw.calls := rfl

@[simp] theorem logWrite_out (r : Reg) (hw : Hw) :
    (logWrite r hw).out = hw.out ++ [Out.write r (regVal hw r)] := rfl

/-! ## Timer and `Wait` -/

theorem tick_overflow (hw : Hw) (h : hw.TA0CCR0 ≤ hw.TA0R) :
    tick hw = { hw with now := hw.now + 1, TA0R := 0, TAIFG := true } := by
  simp [tick, h]

theorem tick_count (hw : Hw) (h : hw.TA0R < hw.TA0CCR0) :
    tick hw = { hw with now := hw.now + 1, TA0R := hw.TA0R + 1 } := by
  simp [tick, Nat.not_le.mpr h]

/-- Once `i` has passed `t` the loop is over. -/
theorem WaitLoop_done (k : Nat) (hw : Hw) (i t : Int) (h : t < i) :
    WaitLoop k hw i t = (hw, i) := by
  cases k with
  | zero => rfl
  | succ k => simp [WaitLoop, Int.not_le.mpr h]

/-- Below 32767 the statement `i++` adds one. -/
theorem incr16_cast (j : Nat) (h : j < 32767) : incr16 (j : Int) = ((j + 1 : Nat) : Int) := by
  unfold incr16
  split <;> (push_cast; omega)

/-- The loop changes nothing but the time and the timer. -/
theorem WaitLoop_frame (polls : Nat) : ∀ (hw : Hw) (i t : Int),
    ∃ n r f, (WaitLoop polls hw i t).1 = { hw with now := n, TA0R := r, TAIFG := f } := by
  induction polls with
  | zero => intro hw i t; exact ⟨hw.now, hw.TA0R, hw.TAIFG, rfl⟩
  | succ k ih =>
    intro hw i t
    unfold WaitLoop
    split
    · simp only
      split
      · obtain ⟨n, r, f, h⟩ := ih { tick hw with TAIFG := false } (incr16 i) t
        refine ⟨n, r, f, ?_⟩
        rw [h]; unfold tick; split <;> rfl
      · obtain ⟨n, r, f, h⟩ := ih (tick hw) i t
        refine ⟨n, r, f, ?_⟩
        rw [h]; unfold tick; split <;> rfl
    · exact ⟨hw.now, hw.TA0R, hw.TAIFG, rfl⟩

/-- With the flag clear the loop idles until the next overflow, `TA0CCR0 - TA0R + 1`
clocks later, and counts it. -/
theorem WaitLoop_first (d : Nat) : ∀ (hw : Hw) (i t : Int) (k : Nat),
    hw.TA0CCR0 - hw.TA0R = d → hw.TAIFG = false → i ≤ t →
    WaitLoop (d + 1 + k) hw i t
      = WaitLoop k { hw with now := hw.now + (d + 1), TA0R := 0, TAIFG := false }
          (incr16 i) t := by
  induction d with
  | zero =>
    intro hw i t k hd hf hi
    have hle : hw.TA0CCR0 ≤ hw.TA0R := by omega
    rw [show 0 + 1 + k = k + 1 by omega, WaitLoop]
    simp [hi, tick_overflow hw hle]
  | succ d ih =>
    intro hw i t k hd hf hi
    have hlt : hw.TA0R < hw.TA0CCR0 := by omega
    rw [show d + 1 + 1 + k = (d + 1 + k) + 1 by omega, WaitLoop]
    simp only [hi, if_true, tick_count hw hlt, hf]
    rw [if_neg (by simp)]
    rw [ih _ i t k (by simp; omega) (by simp [hf]) hi]
    congr 2
    simp
    omega

/-- From a state with the flag clear the loop of `Wait t`, `t < 32767`, makes exactly
`TA0CCR0 - TA0R + 1 + (t - i) * period` passes and leaves with `i = t + 1`. -/
theorem WaitLoop_clear (m : Nat) : ∀ (hw : Hw) (j n k : Nat),
    n - j = m → hw.TAIFG = false → j ≤ n → n < 32767 →
    WaitLoop (hw.TA0CCR0 - hw.TA0R + 1 + m * period hw + k) hw (j : Int) (n : Int)
      = ({ hw with now := hw.now + (hw.TA0CCR0 - hw.TA0R + 1 + m * period hw), TA0R := 0,
                   TAIFG := false }, (n : Int) + 1) := by
  induction m with
  | zero =>
    intro hw j n k hm hf hj hn
    have hjn : j = n := by omega
    rw [show hw.TA0CCR0 - hw.TA0R + 1 + 0 * period hw + k = hw.TA0CCR0 - hw.TA0R + 1 + k by omega,
      WaitLoop_first _ hw j n k rfl hf (by omega), incr16_cast j (by omega),
      WaitLoop_done _ _ _ _ (by push_cast; omega)]
    simp [hjn]
  | succ m ih =>
    intro hw j n k hm hf hj hn
    rw [show hw.TA0CCR0 - hw.TA0R + 1 + (m + 1) * period hw + k
        = hw.TA0CCR0 - hw.TA0R + 1 + ((m + 1) * period hw + k) by omega,
      WaitLoop_first _ hw j n _ rfl hf (by omega), incr16_cast j (by omega)]
    have := ih { hw with now := hw.now + (hw.TA0CCR0 - hw.TA0R + 1), TA0R := 0, TAIFG := false }
      (j + 1) n k (by omega) rfl (by omega) hn
    simp only [period, Nat.sub_zero] at this ⊢
    rw [show (m + 1) * (hw.TA0CCR0 + 1) + k = hw.TA0CCR0 + 1 + m * (hw.TA0CCR0 + 1) + k by ring, this]
    congr 2
    ring

/-- What the loop of `Wait n` does from any state for `0 ≤ n < 32767`, given the passes
`waitPolls` allows: it leaves through its guard with `i = n + 1`, after `e` clocks,
where `e` is at most `n + 1` periods and more than `n - 1` periods, and more than `n`
periods when the flag was clear at entry.  Only the timer and the time have changed. -/
theorem WaitLoop_spec (hw : Hw) (n : Nat) (hn : n < 32767) :
    ∃ e r, (n - 1) * period hw + 1 ≤ e ∧ e ≤ (n + 1) * period hw ∧
      (hw.TAIFG = false → n * period hw < e) ∧
      WaitLoop (waitPolls hw n) hw 0 (n : Int)
        = ({ hw with now := hw.now + e, TA0R := r, TAIFG := false }, (n : Int) + 1) := by
  have h2 : (n + 2) * period hw = n * period hw + 2 * period hw := by ring
  have h1 : (n + 1) * period hw = n * period hw + period hw := by ring
  have hP : period hw = hw.TA0CCR0 + 1 := rfl
  have hW : waitPolls hw n = (n + 2) * period hw := by simp [waitPolls]
  cases hf : hw.TAIFG with
  | false =>
    refine ⟨hw.TA0CCR0 - hw.TA0R + 1 + n * period hw, 0, ?_, by omega, fun _ => by omega, ?_⟩
    · have : (n - 1) * period hw ≤ n * period hw := Nat.mul_le_mul_right _ (by omega)
      omega
    · have hle : hw.TA0CCR0 - hw.TA0R + 1 + n * period hw ≤ waitPolls hw n := by
        rw [hW]; omega
      rw [← Nat.add_sub_of_le hle]
      exact WaitLoop_clear n hw 0 n _ (by omega) hf (by omega) hn
  | true =>
    have hpos : waitPolls hw n = (waitPolls hw n - 1) + 1 := by rw [hW]; omega
    have htick : (tick hw).TAIFG = true := by unfold tick; split <;> simp [hf]
    have h01 : incr16 0 = ((1 : Nat) : Int) := incr16_cast 0 (by omega)
    have hguard : (0 : Int) ≤ (n : Int) := by omega
    rw [hpos, WaitLoop]
    simp only [hguard, if_true, htick, h01]
    rcases Nat.eq_zero_or_pos n with ht | ht
    · subst ht
      refine ⟨1, (tick hw).TA0R, by omega, by omega, by simp, ?_⟩
      rw [WaitLoop_done _ _ _ _ (by simp)]
      simp only [Nat.cast_zero, Nat.cast_one, zero_add]
      congr 1
      unfold tick; split <;> rfl
    · have hm : (n - 1 + 1) * period hw = n * period hw := by rw [Nat.sub_add_cancel ht]
      have hm1 : (n - 1 + 1) * period hw = (n - 1) * period hw + period hw := by ring
      have hC : (tick hw).TA0CCR0 = hw.TA0CCR0 := by unfold tick; split <;> rfl
      have hN : (tick hw).now = hw.now + 1 := by unfold tick; split <;> rfl
      have hR : (tick hw).TA0R = if hw.TA0CCR0 ≤ hw.TA0R then 0 else hw.TA0R + 1 := by
        unfold tick; split <;> rfl
      simp only [period] at h1 h2 hm hm1 hW
      have hle : hw.TA0CCR0 - (tick hw).TA0R + 1 + (n - 1) * (hw.TA0CCR0 + 1)
          ≤ waitPolls hw n - 1 := by
        rw [hW, hR]; split <;> omega
      have hcl := WaitLoop_clear (n - 1) { tick hw with TAIFG := false } 1 n
        (waitPolls hw n - 1 - (hw.TA0CCR0 - (tick hw).TA0R + 1 + (n - 1) * (hw.TA0CCR0 + 1)))
        (by omega) rfl (by omega) hn
      simp only [period, hC] at hcl ⊢
      rw [Nat.add_sub_of_le hle] at hcl
      refine ⟨1 + (hw.TA0CCR0 - (tick hw).TA0R + 1 + (n - 1) * (hw.TA0CCR0 + 1)), 0, by omega,
        ?_, by simp, ?_⟩
      · rw [hR]; split <;> omega
      · rw [hcl]
        congr 2
        · rw [hN]; omega
        all_goals (unfold tick; split <;> rfl)

/-- With `t = 32767` the counter `i` can never pass `t`: the guard `i <= t` holds after
any number of passes, and the loop does not end. -/
theorem WaitLoop_int_max (polls : Nat) : ∀ (hw : Hw) (i : Int), i ≤ 32767 →
    (WaitLoop polls hw i 32767).2 ≤ 32767 := by
  induction polls with
  | zero => intro hw i hi; exact hi
  | succ k ih =>
    intro hw i hi
    unfold WaitLoop
    rw [if_pos hi]
    simp only
    split
    · apply ih
      unfold incr16
      split <;> omega
    · exact ih _ i hi

/-- What `Wait n` does from any state, for `0 ≤ n < 32767`. -/
theorem Wait_spec (hw : Hw) (n : Nat) (hn : n < 32767) :
    ∃ e r, (n - 1) * period hw + 1 ≤ e ∧ e ≤ (n + 1) * period hw ∧
      (hw.TAIFG = false → n * period hw < e) ∧
      Wait hw n = { hw with now := hw.now + e, TA0R := r, TAIFG := false,
                            out := hw.out ++ [Out.wait n] } := by
  obtain ⟨e, r, h1, h2, h3, h4⟩ :=
    WaitLoop_spec { hw with out := hw.out ++ [Out.wait n] } n hn
  refine ⟨e, r, h1, h2, h3, ?_⟩
  unfold Wait
  have : waitPolls hw n = waitPolls { hw with out := hw.out ++ [Out.wait n] } n := rfl
  rw [this, h4]

@[simp] theorem Wait_TA0CCR0 (hw : Hw) (t : Int) : (Wait hw t).TA0CCR0 = hw.TA0CCR0 := by
  obtain ⟨n, r, f, h⟩ := WaitLoop_frame (waitPolls hw t) { hw with out := hw.out ++ [Out.wait t] } 0 t
  unfold Wait; rw [h]

@[simp] theorem Wait_P2OUT (hw : Hw) (t : Int) : (Wait hw t).P2OUT = hw.P2OUT := by
  obtain ⟨n, r, f, h⟩ := WaitLoop_frame (waitPolls hw t) { hw with out := hw.out ++ [Out.wait t] } 0 t
  unfold Wait; rw [h]

@[simp] theorem Wait_P3OUT (hw : Hw) (t : Int) : (Wait hw t).P3OUT = hw.P3OUT := by
  obtain ⟨n, r, f, h⟩ := WaitLoop_frame (waitPolls hw t) { hw with out := hw.out ++ [Out.wait t] } 0 t
  unfold Wait; rw [h]

@[simp] theorem Wait_P9OUT (hw : Hw) (t : Int) : (Wait hw t).P9OUT = hw.P9OUT := by
  obtain ⟨n, r, f, h⟩ := WaitLoop_frame (waitPolls hw t) { hw with out := hw.out ++ [Out.wait t] } 0 t
  unfold Wait; rw [h]

@[simp] theorem Wait_out (hw : Hw) (t : Int) : (Wait hw t).out = hw.out ++ [Out.wait t] := by
  obtain ⟨n, r, f, h⟩ := WaitLoop_frame (waitPolls hw t) { hw with out := hw.out ++ [Out.wait t] } 0 t
  unfold Wait; rw [h]

@[simp] theorem Wait_cmps (hw : Hw) (t : Int) : (Wait hw t).cmps = hw.cmps := by
  obtain ⟨n, r, f, h⟩ := WaitLoop_frame (waitPolls hw t) { hw with out := hw.out ++ [Out.wait t] } 0 t
  unfold Wait; rw [h]

@[simp] theorem Wait_picks (hw : Hw) (t : Int) : (Wait hw t).picks = hw.picks := by
  obtain ⟨n, r, f, h⟩ := WaitLoop_frame (waitPolls hw t) { hw with out := hw.out ++ [Out.wait t] } 0 t
  unfold Wait; rw [h]

@[simp] theorem Wait_calls (hw : Hw) (t : Int) : (Wait hw t).calls = hw.calls := by
  obtain ⟨n, r, f, h⟩ := WaitLoop_frame (waitPolls hw t) { hw with out := hw.out ++ [Out.wait t] } 0 t
  unfold Wait; rw [h]

/-- A call of `Wait n`, `0 ≤ n < 32767`, takes more than `n - 1` timer periods, whatever
the state. -/
theorem Wait_now_ge (hw : Hw) (n : Nat) (hn : n < 32767) :
    hw.now + (n - 1) * period hw + 1 ≤ (Wait hw n).now := by
  obtain ⟨e, r, h1, -, -, h⟩ := Wait_spec hw n hn
  rw [h]; simp only; omega

/-- A call of `Wait n`, `0 ≤ n < 32767`, takes at most `n + 1` timer periods, whatever
the state. -/
theorem Wait_now_le (hw : Hw) (n : Nat) (hn : n < 32767) :
    (Wait hw n).now ≤ hw.now + (n + 1) * period hw := by
  obtain ⟨e, r, -, h2, -, h⟩ := Wait_spec hw n hn
  rw [h]; simp only; omega

/-! ## `MakeSequence` -/

/-- For an `int` the expression `x & 0x01` is the remainder of `x` modulo 2. -/
theorem land_one (x : Int) : Int.land x 1 = x % 2 := by
  cases x with
  | ofNat m => simp [Int.land]
  | negSucc m =>
    simp only [Int.land]
    have : Nat.ldiff 1 m = if m % 2 = 0 then 1 else 0 := by
      apply Nat.eq_of_testBit_eq
      intro i
      rw [Nat.testBit_ldiff]
      cases i with
      | zero =>
        by_cases h : m % 2 = 0 <;> simp [h, Nat.testBit_zero]
        omega
      | succ i =>
        by_cases h : m % 2 = 0 <;> simp [h, Nat.testBit_succ]
    rw [this, Int.negSucc_eq]
    by_cases h : m % 2 = 0 <;> simp [h] <;> omega

/-- Bit `j` of a 16-bit sample survives the conversion to `int` and the arithmetic
shift: `(toInt16 n >> j) & 1` is bit `j` of `n`. -/
theorem bit_toInt16 (n j : Nat) (hn : n < 65536) (hj : j < 16) :
    Int.land (Int.shiftRight (toInt16 n) j) 1 = (((n >>> j) &&& 1 : Nat) : Int) := by
  rw [land_one, ← Int.shiftRight_eq, Int.shiftRight_eq_div_pow, Nat.and_one_is_mod,
    Nat.shiftRight_eq_div_pow]
  unfold toInt16
  interval_cases j <;> (simp; split <;> omega)

/-- A loop over two arrays that treats each array on its own. -/
theorem foldl_pair (f g : List Int → Nat → List Int) (l : List Nat) :
    ∀ (a b : List Int),
      l.foldl (fun (p : List Int × List Int) i => (f p.1 i, g p.2 i)) (a, b)
        = (l.foldl f a, l.foldl g b) := by
  induction l with
  | nil => intro a b; rfl
  | cons x xs ih => intro a b; simp only [List.foldl_cons]; exact ih _ _

/-- A loop that stores `h i` at place `15 - i` for `i` in 0..15 leaves `h (15 - k)` at
place `k`. -/
theorem bits_loop (h : Nat → Int) :
    (List.range 16).foldl (fun arr i => arr.set (15 - i) (h i)) (List.replicate 16 0)
      = (List.range 16).map (fun k => h (15 - k)) := by
  rfl

/-- A loop that assigns every element of an array of `n` elements. -/
theorem assign_loop (g : Nat → Int) (m : Nat) : ∀ (l : List Int), m ≤ l.length →
    (List.range m).foldl (fun seq i => seq.set i (g i)) l
      = (List.range m).map g ++ l.drop m := by
  induction m with
  | zero => intro l _; simp
  | succ m ih =>
    intro l hl
    rw [List.range_succ, List.foldl_append, ih l (by omega)]
    simp only [List.foldl_cons, List.foldl_nil, List.map_append, List.map_cons, List.map_nil]
    rw [List.set_append_right _ _ (by simp)]
    simp only [List.length_map, List.length_range, Nat.sub_self, List.append_assoc]
    congr 1
    conv_lhs => rw [List.drop_eq_getElem_cons (by omega : m < l.length)]
    rfl

theorem MakeSequence_eq (sequence : List Int) (a b : Int) (hlen : sequence.length = 16) :
    MakeSequence sequence a b
      = (List.range 16).map (fun k =>
          Int.land (Int.shiftRight a (15 - k)) 1 + Int.land (Int.shiftRight b (15 - k)) 1 * 3) := by
  unfold MakeSequence
  simp only [foldl_pair (fun arr i => arr.set (15 - i) (Int.land (Int.shiftRight a i) 1))
    (fun arr i => arr.set (15 - i) (Int.land (Int.shiftRight b i) 1)), bits_loop]
  rw [assign_loop _ 16 sequence (by omega)]
  rw [List.drop_of_length_le (by omega), List.append_nil]
  apply List.map_congr_left
  intro k hk
  have hk16 : k < 16 := List.mem_range.mp hk
  simp [List.getD_eq_getElem?_getD, hk16]

theorem MakeSequence_getElem (sequence : List Int) (first second k : Nat)
    (hlen : sequence.length = 16) (hf : first < 65536) (hs : second < 65536) (hk : k < 16) :
    (MakeSequence sequence (toInt16 first) (toInt16 second))[k]?
      = some ((((first >>> (15 - k)) &&& 1) + 3 * ((second >>> (15 - k)) &&& 1) : Nat) : Int) := by
  rw [MakeSequence_eq _ _ _ hlen]
  simp only [List.getElem?_map, List.getElem?_range hk, Option.map_some']
  rw [bit_toInt16 first _ hf (by omega), bit_toInt16 second _ hs (by omega)]
  congr 1
  push_cast
  ring

/-! ## LEDs and `BlinkLeds` -/

theorem and_or_right (a b c : Nat) : (a ||| b) &&& c = (a &&& c) ||| (b &&& c) := by
  rw [Nat.and_comm, Nat.and_or_distrib_left, Nat.and_comm c a, Nat.and_comm c b]

/-- Setting and then clearing the bits `m` of a port: what is left under a mask `m2`. -/
theorem bic_or (p m m2 k : Nat) (hk : (0xFF ^^^ m) &&& m2 = k) (hm : m &&& k = 0) :
    bic (p ||| m) m &&& m2 = p &&& k := by
  unfold bic
  rw [Nat.and_assoc, hk, and_or_right, hm, Nat.or_zero]

theorem and_of_and (p k m2 : Nat) (hk : k = 0 ∨ k = m2) (h : p &&& m2 = 0) : p &&& k = 0 := by
  rcases hk with rfl | rfl
  · simp
  · exact h

/-- A pulse leaves every LED off that was off before it. -/
theorem pulse_isOff (l x : Led) (hw : Hw) (h : isOff hw x) : isOff (pulse l hw) x := by
  cases l <;> cases x <;>
    simp only [pulse, ledOn, ledOff, isOff, Wait_P2OUT, Wait_P3OUT, Wait_P9OUT,
      logWrite_P2OUT, logWrite_P3OUT, logWrite_P9OUT] at h ⊢ <;>
    first
      | exact h
      | (rw [bic_or _ _ _ _ rfl (by decide)]
         exact and_of_and _ _ _ (by decide) h)

theorem pulse_out (l : Led) (hw : Hw) :
    (pulse l hw).out = hw.out ++ pulseTrace l (regVal hw (regOf l)) := by
  cases l <;> simp [pulse, ledOn, ledOff, pulseTrace, regOf, maskOf, regVal, bic]

/-- The registers after a pulse, joined to the trace of the pulses that follow. -/
theorem pulse_then (l : Led) (ls : List Led) (hw : Hw) (hl : l ≠ Led.P9_GREEN) :
    (pulse l hw).out ++ pulsesTrace ls (pulse l hw).P2OUT (pulse l hw).P3OUT
      = hw.out ++ pulsesTrace (l :: ls) hw.P2OUT hw.P3OUT := by
  rw [pulse_out]
  cases l <;>
    first
      | exact absurd rfl hl
      | simp [pulse, ledOn, ledOff, pulsesTrace, regOf, maskOf, regVal, bic]

theorem blinkCase_eq (v : Int) (l : Led) (hw : Hw) (h : ledOf v = some l) :
    blinkCase v hw = pulse l hw := by
  unfold ledOf at h
  unfold blinkCase
  split_ifs at h ⊢ <;> simp_all

theorem blinkCase_isOff (v : Int) (x : Led) (hw : Hw) (h : isOff hw x) :
    isOff (blinkCase v hw) x := by
  unfold blinkCase
  split_ifs <;> first | exact pulse_isOff _ _ _ h | exact h

/-- The do-while loop of `BlinkLeds` on a sequence whose elements from `i` to `round`
are the colour codes of the LEDs `col i`, ..., `col round`: its output trace is that of
the pulses of these LEDs. -/
theorem BlinkLoop_out (env : Env) (sequence : List Int) (round : Nat) (col : Nat → Led)
    (hcol : ∀ j, j ≤ round → ledOf (readSeq env sequence j) = some (col j))
    (hled : ∀ j, col j ≠ Led.P9_GREEN) :
    ∀ (passes : Nat) (hw : Hw) (i : Nat), i + passes = round + 1 → 0 < passes →
      (BlinkLoop passes env hw sequence i round).out
        = hw.out ++ pulsesTrace ((List.range' i passes).map col) hw.P2OUT hw.P3OUT := by
  intro passes
  induction passes with
  | zero => intro hw i _ h; omega
  | succ k ih =>
    intro hw i hik _
    rw [List.range'_succ, List.map_cons, ← pulse_then _ _ _ (hled i)]
    unfold BlinkLoop
    simp only
    rw [blinkCase_eq _ _ _ (hcol i (by omega))]
    by_cases hle : i + 1 ≤ round
    · rw [if_pos hle]
      exact ih _ (i + 1) (by omega) (by omega)
    · rw [if_neg hle]
      have hk : k = 0 := by omega
      subst hk
      simp [pulsesTrace]

theorem BlinkLoop_isOff (env : Env) (sequence : List Int) (round : Nat) (x : Led) :
    ∀ (passes : Nat) (hw : Hw) (i : Nat), isOff hw x →
      isOff (BlinkLoop passes env hw sequence i round) x := by
  intro passes
  induction passes with
  | zero => intro hw i h; exact h
  | succ k ih =>
    intro hw i h
    unfold BlinkLoop
    simp only
    split
    · exact ih _ _ (blinkCase_isOff _ _ _ h)
    · exact blinkCase_isOff _ _ _ h

theorem BlinkLeds_out (env : Env) (hw : Hw) (sequence : List Int) (round : Nat)
    (col : Nat → Led)
    (hcol : ∀ j, j ≤ round → ledOf (readSeq env sequence j) = some (col j))
    (hled : ∀ j, col j ≠ Led.P9_GREEN) :
    (BlinkLeds env hw sequence round).out
      = hw.out ++ pulsesTrace ((List.range (round + 1)).map col) hw.P2OUT hw.P3OUT := by
  unfold BlinkLeds
  rw [BlinkLoop_out env sequence round col hcol hled (round + 1) hw 0 (by omega) (by omega),
    List.range_eq_range']

/-! ## `GetAnswer` -/

@[simp] theorem tick_TA0CCR0 (hw : Hw) : (tick hw).TA0CCR0 = hw.TA0CCR0 := by
  unfold tick; split <;> rfl

@[simp] theorem tick_now (hw : Hw) : (tick hw).now = hw.now + 1 := by
  unfold tick; split <;> rfl

@[simp] theorem tick_cmps (hw : Hw) : (tick hw).cmps = hw.cmps := by
  unfold tick; split <;> rfl

@[simp] theorem tick_picks (hw : Hw) : (tick hw).picks = hw.picks := by
  unfold tick; split <;> rfl

@[simp] theorem tick_calls (hw : Hw) : (tick hw).calls = hw.calls := by
  unfold tick; split <;> rfl

/-- One `if (button depressed) { ... }` of a polling pass keeps an invariant that the
body keeps. -/
theorem answerIf_keeps (env : Env) (sequence : List Int) (P : Ans → Prop) (b : Btn)
    (hbtn : ∀ s : Ans, P s → down env s.hw.now b → P (answerBtn env sequence b (codeOf b) s))
    (c : Ans → Prop) [∀ s, Decidable (c s)] (hc : ∀ s, c s → down env s.hw.now b)
    (s : Ans) (h : P s) :
    P (if c s then answerBtn env sequence b (codeOf b) s else s) := by
  by_cases hcs : c s
  · rw [if_pos hcs]; exact hbtn s h (hc s hcs)
  · rw [if_neg hcs]; exact h

/-- A property kept by the passing of one clock and by the body of each `if` is kept by
a pass of the loop of `GetAnswer`. -/
theorem answerPass_keeps (env : Env) (sequence : List Int) (P : Ans → Prop)
    (htick : ∀ s : Ans, P s → P { s with hw := tick s.hw })
    (hbtn : ∀ (b : Btn) (s : Ans), P s → down env s.hw.now b →
      P (answerBtn env sequence b (codeOf b) s))
    (s : Ans) (h : P s) : P (answerPass env sequence s) := by
  unfold answerPass
  exact answerIf_keeps env sequence P .YELLOW (hbtn .YELLOW)
      (fun s => env.P1IN s.hw.now &&& YELLOW_BTN = 0) (fun _ h => h) _
    (answerIf_keeps env sequence P .BLUE (hbtn .BLUE)
      (fun s => env.P3IN s.hw.now &&& BLUE_BTN = 0) (fun _ h => h) _
    (answerIf_keeps env sequence P .GREEN (hbtn .GREEN)
      (fun s => env.P3IN s.hw.now &&& GREEN_BTN = 0) (fun _ h => h) _
    (answerIf_keeps env sequence P .RED (hbtn .RED)
      (fun s => env.P2IN s.hw.now &&& RED_BTN = 0) (fun _ h => h) _ (htick s h))))

/-- The same for any number of passes. -/
theorem answerLoop_keeps (env : Env) (sequence : List Int) (round : Nat) (P : Ans → Prop)
    (htick : ∀ s : Ans, P s → P { s with hw := tick s.hw })
    (hbtn : ∀ (b : Btn) (s : Ans), P s → down env s.hw.now b →
      P (answerBtn env sequence b (codeOf b) s)) :
    ∀ (n : Nat) (s : Ans), P s → P (answerLoop n env sequence round s) := by
  intro n
  induction n with
  | zero => intro s h; exact h
  | succ n ih =>
    intro s h
    unfold answerLoop
    split
    · exact ih _ (answerPass_keeps env sequence P htick hbtn s h)
    · exact h

theorem answerBtn_cmps (env : Env) (sequence : List Int) (b : Btn) (code : Int) (s : Ans) :
    (answerBtn env sequence b code s).hw.cmps = s.hw.cmps ++ [⟨b, code, s.i, s.hw.now⟩] := by
  unfold answerBtn; simp only; split <;> simp

theorem answerBtn_calls (env : Env) (sequence : List Int) (b : Btn) (code : Int) (s : Ans) :
    (answerBtn env sequence b code s).hw.calls = s.hw.calls := by
  unfold answerBtn; simp only; split <;> simp

theorem answerBtn_TA0CCR0 (env : Env) (sequence : List Int) (b : Btn) (code : Int) (s : Ans) :
    (answerBtn env sequence b code s).hw.TA0CCR0 = s.hw.TA0CCR0 := by
  unfold answerBtn; simp only; split <;> simp

/-- After the body of an `if` more than `QUART_SEC - 1` timer periods have gone by. -/
theorem answerBtn_now (env : Env) (sequence : List Int) (b : Btn) (code : Int) (s : Ans) :
    s.hw.now + 24 * period s.hw < (answerBtn env sequence b code s).hw.now := by
  have h25 : QUART_SEC = ((25 : Nat) : Int) := rfl
  unfold answerBtn; simp only
  split <;>
  · have := Wait_now_ge { s.hw with cmps := s.hw.cmps ++ [⟨b, code, s.i, s.hw.now⟩] } 25
      (by omega)
    rw [h25]
    simp only [period] at this ⊢
    omega

theorem answerBtn_i (env : Env) (sequence : List Int) (b : Btn) (code : Int) (s : Ans) :
    (answerBtn env sequence b code s).i ≤ s.i + 1 := by
  unfold answerBtn; simp only; split <;> simp

/-- `GetAnswer` leaves the trace of calls as it is. -/
theorem answerLoop_calls (env : Env) (sequence : List Int) (round n : Nat) (s : Ans) :
    (answerLoop n env sequence round s).hw.calls = s.hw.calls :=
  answerLoop_keeps env sequence round (fun x => x.hw.calls = s.hw.calls)
    (fun x h => by simpa using h)
    (fun b x h _ => by show _ = _; rw [answerBtn_calls]; exact h) n s rfl

/-- The value returned by `GetAnswer` is 0 or 1, and the trace of calls is untouched. -/
theorem GetAnswer_ret (n : Nat) (env : Env) (hw hw1 : Hw) (sequence : List Int) (round v : Nat)
    (h : GetAnswer n env hw sequence round = some (v, hw1)) :
    (v = 0 ∨ v = 1) ∧ hw1.calls = hw.calls := by
  unfold GetAnswer at h
  simp only at h
  have hc := answerLoop_calls env sequence round n ⟨hw, 0, 0⟩
  split at h
  · exact absurd h (by simp)
  · split at h <;>
    · simp only [Option.some.injEq, Prod.mk.injEq] at h
      obtain ⟨rfl, rfl⟩ := h
      exact ⟨by simp, hc⟩

/-- Invariant of the loop of `GetAnswer`: as long as `game_over` is 0, every comparison
made so far found the colour it expected. -/
theorem answerLoop_matched (env : Env) (sequence : List Int) (round n : Nat) (hw : Hw) :
    ∃ evs, (answerLoop n env sequence round ⟨hw, 0, 0⟩).hw.cmps = hw.cmps ++ evs ∧
      ((answerLoop n env sequence round ⟨hw, 0, 0⟩).game_over = 0 →
        ∀ c ∈ evs, readSeq env sequence c.index = c.colour) := by
  refine answerLoop_keeps env sequence round
    (fun x => ∃ evs, x.hw.cmps = hw.cmps ++ evs ∧
      (x.game_over = 0 → ∀ c ∈ evs, readSeq env sequence c.index = c.colour))
    ?_ ?_ n ⟨hw, 0, 0⟩ ⟨[], by simp, by simp⟩
  · rintro x ⟨evs, h1, h2⟩
    exact ⟨evs, by simpa using h1, h2⟩
  · rintro b x ⟨evs, h1, h2⟩ _
    refine ⟨evs ++ [⟨b, codeOf b, x.i, x.hw.now⟩], ?_, ?_⟩
    · show _ = _
      rw [answerBtn_cmps, h1, List.append_assoc]
    · unfold answerBtn
      simp only
      split
      · rename_i heq
        intro hg c hc
        simp only [List.mem_append, List.mem_singleton] at hc
        rcases hc with hc | rfl
        · exact h2 hg c hc
        · exact heq
      · intro hg
        simp at hg

/-! ## The game loop of `main` -/

@[simp] theorem ledOn_calls (l : Led) (hw : Hw) : (ledOn l hw).calls = hw.calls := by
  cases l <;> rfl

@[simp] theorem ledOff_calls (l : Led) (hw : Hw) : (ledOff l hw).calls = hw.calls := by
  cases l <;> rfl

@[simp] theorem ledToggle_calls (l : Led) (hw : Hw) : (ledToggle l hw).calls = hw.calls := by
  cases l <;> rfl

@[simp] theorem call_calls (c : Call) (hw : Hw) : (call c hw).calls = hw.calls ++ [c] := rfl

@[simp] theorem pulse_calls (l : Led) (hw : Hw) : (pulse l hw).calls = hw.calls := by
  simp [pulse]

@[simp] theorem blinkCase_calls (v : Int) (hw : Hw) : (blinkCase v hw).calls = hw.calls := by
  unfold blinkCase; split_ifs <;> simp

theorem BlinkLoop_calls (env : Env) (sequence : List Int) (round : Nat) :
    ∀ (passes : Nat) (hw : Hw) (i : Nat),
      (BlinkLoop passes env hw sequence i round).calls = hw.calls := by
  intro passes
  induction passes with
  | zero => intro hw i; rfl
  | succ k ih =>
    intro hw i
    unfold BlinkLoop
    simp only
    split
    · rw [ih]; simp
    · simp

@[simp] theorem BlinkLeds_calls (env : Env) (hw : Hw) (sequence : List Int) (round : Nat) :
    (BlinkLeds env hw sequence round).calls = hw.calls :=
  BlinkLoop_calls env sequence round _ hw 0

/-- A `for` loop whose body leaves the trace of calls alone leaves it alone. -/
theorem iterate_calls (f : Hw → Hw) (hf : ∀ h, (f h).calls = h.calls) :
    ∀ (n : Nat) (hw : Hw), (Nat.iterate f n hw).calls = hw.calls := by
  intro n
  induction n with
  | zero => intro hw; rfl
  | succ n ih => intro hw; rw [Function.iterate_succ_apply, ih, hf]

@[simp] theorem CorrectAnswer_calls (hw : Hw) : (CorrectAnswer hw).calls = hw.calls :=
  iterate_calls _ (fun h => by simp) 8 hw

@[simp] theorem Win_calls (hw : Hw) : (Win hw).calls = hw.calls :=
  iterate_calls _ (fun h => by simp [flash]) 3 hw

@[simp] theorem Loss_calls (hw : Hw) : (Loss hw).calls = hw.calls := by
  unfold Loss
  rw [Wait_calls]
  exact iterate_calls _ (fun h => by simp) 3 hw

theorem answerEntry_calls (env : Env) (sequence : List Int) (p : Play) :
    (answerEntry env sequence p).calls
      = p.hw.calls ++ [Call.BlinkLeds p.round, Call.GetAnswer p.round] := by
  simp [answerEntry]

/-- A pass of the game loop in which `GetAnswer` returns 0: `CorrectAnswer` is not
called, `round` stays, `game_state` becomes 0. -/
theorem playPass_wrong (g : Nat) (env : Env) (sequence : List Int) (difficulty : Nat) (p : Play)
    (hw4 : Hw) (hr : p.round < difficulty)
    (hg : GetAnswer g env (answerEntry env sequence p) sequence p.round = some (0, hw4)) :
    playPass g env sequence difficulty p = some ⟨Wait (Wait hw4 TEN_MS) TEN_MS, 0, p.round⟩ := by
  unfold playPass
  rw [hg]
  simp only [Nat.zero_ne_one, if_false]
  rw [if_neg (by omega)]

/-- A pass of the game loop in which `GetAnswer` returns 1. -/
theorem playPass_right (g : Nat) (env : Env) (sequence : List Int) (difficulty : Nat) (p : Play)
    (hw4 : Hw)
    (hg : GetAnswer g env (answerEntry env sequence p) sequence p.round = some (1, hw4)) :
    playPass g env sequence difficulty p
      = some ⟨Wait (CorrectAnswer (call .CorrectAnswer (Wait hw4 TEN_MS))) TEN_MS,
          if p.round + 1 = difficulty then 2 else 1, p.round + 1⟩ := by
  unfold playPass
  rw [hg]
  have h11 : (1 : Nat) = 1 := rfl
  dsimp only
  rw [if_pos h11]
  dsimp only
  by_cases h : p.round + 1 = difficulty
  · rw [if_pos h, if_pos h]
  · rw [if_neg h, if_neg h]

/-- What a pass of the game loop can do. -/
theorem playPass_spec (g : Nat) (env : Env) (sequence : List Int) (difficulty : Nat)
    (p p1 : Play) (hr : p.round < difficulty)
    (hp : playPass g env sequence difficulty p = some p1) :
    (p1.game_state = 0 ∧ p1.round = p.round ∧
        p1.hw.calls = p.hw.calls ++ [Call.BlinkLeds p.round, Call.GetAnswer p.round]) ∨
    (p1.round = p.round + 1 ∧
        p1.hw.calls = p.hw.calls
          ++ [Call.BlinkLeds p.round, Call.GetAnswer p.round, Call.CorrectAnswer] ∧
        ((p1.round = difficulty ∧ p1.game_state = 2) ∨
          (p1.round < difficulty ∧ p1.game_state = 1))) := by
  cases hg : GetAnswer g env (answerEntry env sequence p) sequence p.round with
  | none => unfold playPass at hp; rw [hg] at hp; exact absurd hp (by simp)
  | some r =>
    obtain ⟨v, hw4⟩ := r
    obtain ⟨hv, hcalls⟩ := GetAnswer_ret _ _ _ _ _ _ _ hg
    rw [answerEntry_calls] at hcalls
    rcases hv with rfl | rfl
    · rw [playPass_wrong g env sequence difficulty p hw4 hr hg] at hp
      simp only [Option.some.injEq] at hp
      subst hp
      left
      simp [hcalls]
    · rw [playPass_right g env sequence difficulty p hw4 hg] at hp
      simp only [Option.some.injEq] at hp
      subst hp
      right
      refine ⟨rfl, by simp [hcalls], ?_⟩
      by_cases h : p.round + 1 = difficulty
      · left; simp [h]
      · right; simp only [h, if_false]; exact ⟨by omega, trivial⟩

/-- The game loop from a state with `round < difficulty` and `round` correct rounds
behind it: it ends either with `game_state = 2` after `difficulty` correct rounds, or
with `game_state = 0` in a round `m < difficulty` whose answer was wrong, the rounds
before `m` having been answered correctly. -/
theorem playLoop_spec (g : Nat) (env : Env) (sequence : List Int) (difficulty : Nat)
    (base : List Call) :
    ∀ (n : Nat) (p pEnd : Play), p.game_state = 1 → p.round < difficulty →
      p.hw.calls = base ++ roundCalls p.round →
      playLoop n g env sequence difficulty p = some pEnd →
      (pEnd.game_state = 2 ∧ pEnd.round = difficulty ∧
          pEnd.hw.calls = base ++ roundCalls difficulty) ∨
      (pEnd.game_state = 0 ∧ pEnd.round < difficulty ∧
          pEnd.hw.calls = base ++ roundCalls pEnd.round
            ++ [Call.BlinkLeds pEnd.round, Call.GetAnswer pEnd.round]) := by
  intro n
  induction n with
  | zero =>
    intro p pEnd hs _ _ h
    unfold playLoop at h
    rw [if_pos hs] at h
    exact absurd h (by simp)
  | succ n ih =>
    intro p pEnd hs hr hcalls h
    unfold playLoop at h
    rw [if_pos hs] at h
    cases hp : playPass g env sequence difficulty p with
    | none => rw [hp] at h; exact absurd h (by simp)
    | some p1 =>
      rw [hp] at h
      simp only at h
      have hstop : ∀ q : Play, q.game_state ≠ 1 → playLoop n g env sequence difficulty q = some q := by
        intro q hq
        cases n <;> (unfold playLoop; rw [if_neg hq])
      rcases playPass_spec g env sequence difficulty p p1 hr hp with ⟨h0, hround, hc⟩ | ⟨hround, hc, hfin | hgo⟩
      · rw [hstop p1 (by omega)] at h
        simp only [Option.some.injEq] at h
        subst h
        right
        refine ⟨h0, by omega, ?_⟩
        rw [hc, hcalls, hround]
      · rw [hstop p1 (by omega)] at h
        simp only [Option.some.injEq] at h
        subst h
        left
        refine ⟨hfin.2, hfin.1, ?_⟩
        rw [hc, hcalls, ← hfin.1, hround, roundCalls]
        simp
      · refine ih p1 pEnd hgo.2 hgo.1 ?_ h
        rw [hc, hcalls, hround, roundCalls]
        simp

theorem playLoop_stop (n g : Nat) (env : Env) (sequence : List Int) (d : Nat) (q : Play)
    (hq : q.game_state ≠ 1) : playLoop n g env sequence d q = some q := by
  cases n <;> (unfold playLoop; rw [if_neg hq])

theorem playLoop_go (n g : Nat) (env : Env) (sequence : List Int) (d : Nat) (q q1 : Play)
    (hq : q.game_state = 1) (hp : playPass g env sequence d q = some q1) :
    playLoop (n + 1) g env sequence d q = playLoop n g env sequence d q1 := by
  rw [playLoop, if_pos hq, hp]

theorem GetAnswer_value (g : Nat) (env : Env) (hw : Hw) (sequence : List Int) (r v : Nat)
    (h : (GetAnswer g env hw sequence r).map Prod.fst = some v) :
    ∃ hw4, GetAnswer g env hw sequence r = some (v, hw4) := by
  cases hg : GetAnswer g env hw sequence r with
  | none => rw [hg] at h; exact absurd h (by simp)
  | some x =>
    rw [hg] at h
    simp only [Option.map_some', Option.some.injEq] at h
    exact ⟨x.2, by rw [← h]⟩

/-- The game loop while every round is answered correctly. -/
theorem playPasses_right (g : Nat) (env : Env) (sequence : List Int) (d : Nat) (p0 : Play)
    (hs : p0.game_state = 1) (h0 : p0.round = 0) (hd : 0 < d) :
    ∀ m, m ≤ d →
      (∀ r, r < m → (GetAnswer g env
        (answerEntry env sequence (playPasses g env sequence d r p0)) sequence r).map Prod.fst
          = some 1) →
      (playPasses g env sequence d m p0).round = m ∧
      (playPasses g env sequence d m p0).game_state = (if m = d then 2 else 1) ∧
      (playPasses g env sequence d m p0).hw.calls = p0.hw.calls ++ roundCalls m ∧
      ∀ n, playLoop (m + n) g env sequence d p0
        = playLoop n g env sequence d (playPasses g env sequence d m p0) := by
  intro m
  induction m with
  | zero =>
    intro _ _
    refine ⟨h0, ?_, by simp [playPasses, roundCalls], fun n => by simp [playPasses]⟩
    rw [if_neg (by omega)]
    exact hs
  | succ m ih =>
    intro hm hr
    obtain ⟨i1, i2, i3, i4⟩ := ih (by omega) (fun r h => hr r (by omega))
    rw [if_neg (by omega)] at i2
    obtain ⟨hw4, hg⟩ := GetAnswer_value _ _ _ _ _ _ (hr m (by omega))
    have hg1 : GetAnswer g env (answerEntry env sequence (playPasses g env sequence d m p0))
        sequence (playPasses g env sequence d m p0).round = some (1, hw4) := by
      rw [i1]; exact hg
    have hp := playPass_right g env sequence d _ hw4 hg1
    obtain ⟨_, hcalls⟩ := GetAnswer_ret _ _ _ _ _ _ _ hg1
    rw [answerEntry_calls] at hcalls
    have hq : playPasses g env sequence d (m + 1) p0
        = ⟨Wait (CorrectAnswer (call .CorrectAnswer (Wait hw4 TEN_MS))) TEN_MS,
          if (playPasses g env sequence d m p0).round + 1 = d then 2 else 1,
          (playPasses g env sequence d m p0).round + 1⟩ := by
      rw [playPasses]
      simp only [i2, if_true, hp, Option.getD_some]
    refine ⟨by rw [hq, i1], by rw [hq, i1], ?_, ?_⟩
    · rw [hq]
      simp [hcalls, i3, i1, roundCalls]
    · intro n
      rw [show m + 1 + n = m + (n + 1) by omega, i4 (n + 1), playLoop_go n g env sequence d _ _ i2 hp, hq]

/-- What holds of the game loop after any number of passes, whether or not the game
comes to an end. -/
theorem playPasses_inv (g : Nat) (env : Env) (sequence : List Int) (d : Nat) (p0 : Play)
    (hs : p0.game_state = 1) (h0 : p0.round = 0) (hd : 0 < d) :
    ∀ m, (((playPasses g env sequence d m p0).game_state = 1 ∧
          (playPasses g env sequence d m p0).round < d ∧
          (playPasses g env sequence d m p0).hw.calls
            = p0.hw.calls ++ roundCalls (playPasses g env sequence d m p0).round) ∨
        ((playPasses g env sequence d m p0).game_state = 2 ∧
          (playPasses g env sequence d m p0).round = d ∧
          (playPasses g env sequence d m p0).hw.calls = p0.hw.calls ++ roundCalls d) ∨
        ((playPasses g env sequence d m p0).game_state = 0 ∧
          (playPasses g env sequence d m p0).round < d ∧
          (playPasses g env sequence d m p0).hw.calls
            = p0.hw.calls ++ roundCalls (playPasses g env sequence d m p0).round
              ++ [Call.BlinkLeds (playPasses g env sequence d m p0).round,
                  Call.GetAnswer (playPasses g env sequence d m p0).round])) := by
  intro m
  induction m with
  | zero =>
    left
    refine ⟨hs, ?_, ?_⟩
    · show p0.round < d
      omega
    · show p0.hw.calls = p0.hw.calls ++ roundCalls p0.round
      rw [h0]; simp [roundCalls]
  | succ m ih =>
    rw [playPasses]
    rcases ih with ⟨i1, i2, i3⟩ | ⟨i1, i2, i3⟩ | ⟨i1, i2, i3⟩
    · rw [if_pos i1]
      cases hp : playPass g env sequence d (playPasses g env sequence d m p0) with
      | none => exact Or.inl ⟨i1, i2, i3⟩
      | some p1 =>
        simp only [Option.getD_some]
        rcases playPass_spec g env sequence d _ p1 i2 hp with
          ⟨a, b, c⟩ | ⟨b, c, ⟨e, f⟩ | ⟨e, f⟩⟩
        · right; right
          refine ⟨a, by omega, ?_⟩
          rw [c, i3, b]
        · right; left
          refine ⟨f, e, ?_⟩
          have hd1 : roundCalls d
              = roundCalls ((playPasses g env sequence d m p0).round + 1) :=
            congrArg roundCalls (by omega)
          rw [c, i3, hd1, roundCalls]
          simp
        · left
          refine ⟨f, e, ?_⟩
          rw [c, i3, b, roundCalls]
          simp
    · rw [if_neg (by omega)]
      exact Or.inr (Or.inl ⟨i1, i2, i3⟩)
    · rw [if_neg (by omega)]
      exact Or.inr (Or.inr ⟨i1, i2, i3⟩)

/-- A game in which every round is answered correctly comes to its end with `Win`. -/
theorem playGame_won (n g : Nat) (env : Env) (hw1 : Hw) (sequence : List Int) (d : Nat)
    (hd : 0 < d) (hn : d ≤ n)
    (hr : ∀ r, r < d → (GetAnswer g env
      (answerEntry env sequence (playPasses g env sequence d r ⟨hw1, 1, 0⟩)) sequence r).map
        Prod.fst = some 1) :
    ∃ hwEnd, playGame n g env hw1 sequence d = some hwEnd ∧
      hwEnd.calls = hw1.calls ++ roundCalls d ++ [Call.Win] := by
  obtain ⟨_, i2, i3, i4⟩ := playPasses_right g env sequence d ⟨hw1, 1, 0⟩ rfl rfl hd d
    (le_refl d) hr
  rw [if_pos rfl] at i2
  refine ⟨Win (call .Win (playPasses g env sequence d d ⟨hw1, 1, 0⟩).hw), ?_, ?_⟩
  · unfold playGame playFrom
    rw [show n = d + (n - d) by omega, i4, playLoop_stop _ _ _ _ _ _ (by omega)]
    simp [endGame, i2]
  · simp [i3]

/-- A game whose rounds before `m` are answered correctly and whose round `m` is
answered wrongly comes to its end with `Loss` in round `m`. -/
theorem playGame_lost (n g : Nat) (env : Env) (hw1 : Hw) (sequence : List Int) (d m : Nat)
    (hm : m < d) (hn : m < n)
    (hr : ∀ r, r < m → (GetAnswer g env
      (answerEntry env sequence (playPasses g env sequence d r ⟨hw1, 1, 0⟩)) sequence r).map
        Prod.fst = some 1)
    (hwrong : (GetAnswer g env
      (answerEntry env sequence (playPasses g env sequence d m ⟨hw1, 1, 0⟩)) sequence m).map
        Prod.fst = some 0) :
    ∃ hwEnd, playGame n g env hw1 sequence d = some hwEnd ∧
      hwEnd.calls = hw1.calls ++ roundCalls m
        ++ [Call.BlinkLeds m, Call.GetAnswer m, Call.Loss] := by
  obtain ⟨i1, i2, i3, i4⟩ := playPasses_right g env sequence d ⟨hw1, 1, 0⟩ rfl rfl (by omega) m
    (by omega) hr
  rw [if_neg (by omega)] at i2
  obtain ⟨hw4, hg⟩ := GetAnswer_value _ _ _ _ _ _ hwrong
  have hg1 : GetAnswer g env
      (answerEntry env sequence (playPasses g env sequence d m ⟨hw1, 1, 0⟩))
      sequence (playPasses g env sequence d m ⟨hw1, 1, 0⟩).round = some (0, hw4) := by
    rw [i1]; exact hg
  have hp := playPass_wrong g env sequence d _ hw4 (by omega) hg1
  obtain ⟨_, hcalls⟩ := GetAnswer_ret _ _ _ _ _ _ _ hg1
  rw [answerEntry_calls] at hcalls
  refine ⟨Loss (call .Loss (Wait (Wait hw4 TEN_MS) TEN_MS)), ?_, ?_⟩
  · unfold playGame playFrom
    rw [show n = m + ((n - m - 1) + 1) by omega, i4,
      playLoop_go _ g env sequence d _ _ i2 hp, playLoop_stop _ _ _ _ _ _ (by simp)]
    simp [endGame]
  · simp [hcalls, i3, i1]

/-- With one button held down and no other, and the colour of that button at the
places `0` to `round` of the sequence, `GetAnswer` returns 1. -/
theorem answerPass_only (env : Env) (sequence : List Int) (s : Ans) (b : Btn)
    (hheld : ∀ t b1, down env t b1 ↔ b1 = b) (hseq : readSeq env sequence s.i = codeOf b) :
    (answerPass env sequence s).i = s.i + 1 ∧
      (answerPass env sequence s).game_over = s.game_over := by
  have hR : ∀ t, (env.P2IN t &&& RED_BTN = 0) ↔ Btn.RED = b := fun t => hheld t .RED
  have hG : ∀ t, (env.P3IN t &&& GREEN_BTN = 0) ↔ Btn.GREEN = b := fun t => hheld t .GREEN
  have hB : ∀ t, (env.P3IN t &&& BLUE_BTN = 0) ↔ Btn.BLUE = b := fun t => hheld t .BLUE
  have hY : ∀ t, (env.P1IN t &&& YELLOW_BTN = 0) ↔ Btn.YELLOW = b := fun t => hheld t .YELLOW
  unfold answerPass
  cases b <;> simp only [codeOf] at hseq <;> simp [hR, hG, hB, hY, answerBtn, hseq]

theorem answerLoop_only (env : Env) (sequence : List Int) (round : Nat) (b : Btn)
    (hheld : ∀ t b1, down env t b1 ↔ b1 = b)
    (hseq : ∀ i, i ≤ round → readSeq env sequence i = codeOf b) :
    ∀ (n : Nat) (s : Ans), s.game_over = 0 → s.i ≤ round + 1 → round + 1 ≤ s.i + n →
      (answerLoop n env sequence round s).i = round + 1 ∧
        (answerLoop n env sequence round s).game_over = 0 := by
  intro n
  induction n with
  | zero =>
    intro s h1 h2 h3
    exact ⟨by unfold answerLoop; omega, by unfold answerLoop; exact h1⟩
  | succ n ih =>
    intro s h1 h2 h3
    unfold answerLoop
    by_cases hc : s.i ≤ round ∧ s.game_over = 0
    · rw [if_pos hc]
      obtain ⟨e1, e2⟩ := answerPass_only env sequence s b hheld (hseq _ hc.1)
      exact ih _ (by rw [e2]; exact h1) (by omega) (by omega)
    · rw [if_neg hc]
      exact ⟨by omega, h1⟩

theorem GetAnswer_only (g : Nat) (env : Env) (hw : Hw) (sequence : List Int) (round : Nat)
    (b : Btn) (hheld : ∀ t b1, down env t b1 ↔ b1 = b)
    (hseq : ∀ i, i ≤ round → readSeq env sequence i = codeOf b) (hg : round < g) :
    (GetAnswer g env hw sequence round).map Prod.fst = some 1 := by
  obtain ⟨e1, e2⟩ := answerLoop_only env sequence round b hheld hseq g ⟨hw, 0, 0⟩ rfl
    (by simp) (by simp; omega)
  unfold GetAnswer
  simp only [e1, e2]
  simp

/-! ## `ChooseDifficulty` -/

@[simp] theorem ledToggle_picks (l : Led) (hw : Hw) : (ledToggle l hw).picks = hw.picks := by
  cases l <;> rfl

@[simp] theorem promptOff_picks (hw : Hw) : (promptOff hw).picks = hw.picks := rfl

@[simp] theorem promptOn_picks (hw : Hw) : (promptOn hw).picks = hw.picks := rfl

/-- A `for` loop whose body leaves the trace of picks alone leaves it alone. -/
theorem iterate_picks (f : Hw → Hw) (hf : ∀ h, (f h).picks = h.picks) :
    ∀ (n : Nat) (hw : Hw), (Nat.iterate f n hw).picks = hw.picks := by
  intro n
  induction n with
  | zero => intro hw; rfl
  | succ n ih => intro hw; rw [Function.iterate_succ_apply, ih, hf]

@[simp] theorem confirm_picks (l : Led) (hw : Hw) : (confirm l hw).picks = hw.picks :=
  iterate_picks _ (fun h => by simp) 8 hw

theorem chooseBtn_picks (b : Btn) (l : Led) (rounds : Nat) (s : Sel) :
    (chooseBtn b l rounds s).hw.picks = s.hw.picks ++ [⟨b, s.hw.now⟩] := by
  simp [chooseBtn]

theorem chooseBtn_x (b : Btn) (l : Led) (rounds : Nat) (s : Sel) :
    (chooseBtn b l rounds s).x = rounds := rfl

/-- One `if (button depressed) { ... }` of a polling pass keeps an invariant that the
body keeps. -/
theorem chooseIf_keeps (env : Env) (P : Sel → Prop) (b : Btn) (l : Led)
    (hbtn : ∀ s : Sel, P s → down env s.hw.now b → P (chooseBtn b l (roundsOf b) s))
    (c : Sel → Prop) [∀ s, Decidable (c s)] (hc : ∀ s, c s → down env s.hw.now b)
    (s : Sel) (h : P s) :
    P (if c s then chooseBtn b l (roundsOf b) s else s) := by
  by_cases hcs : c s
  · rw [if_pos hcs]; exact hbtn s h (hc s hcs)
  · rw [if_neg hcs]; exact h

/-- A property kept by the passing of one clock and by the body of each `if` is kept by
a pass of the loop of `ChooseDifficulty`. -/
theorem choosePass_keeps (env : Env) (P : Sel → Prop)
    (htick : ∀ s : Sel, P s → P { s with hw := tick s.hw })
    (hbtn : ∀ (b : Btn) (l : Led) (s : Sel), P s → down env s.hw.now b →
      P (chooseBtn b l (roundsOf b) s))
    (s : Sel) (h : P s) : P (choosePass env s) := by
  unfold choosePass
  exact chooseIf_keeps env P .RED .RED (hbtn .RED .RED)
      (fun s => env.P2IN s.hw.now &&& RED_BTN = 0) (fun _ h => h) _
    (chooseIf_keeps env P .YELLOW .YELLOW (hbtn .YELLOW .YELLOW)
      (fun s => env.P1IN s.hw.now &&& YELLOW_BTN = 0) (fun _ h => h) _
    (chooseIf_keeps env P .BLUE .BLUE (hbtn .BLUE .BLUE)
      (fun s => env.P3IN s.hw.now &&& BLUE_BTN = 0) (fun _ h => h) _
    (chooseIf_keeps env P .GREEN .GREEN (hbtn .GREEN .GREEN)
      (fun s => env.P3IN s.hw.now &&& GREEN_BTN = 0) (fun _ h => h) _ (htick s h))))

/-- The same for any number of passes. -/
theorem chooseLoop_keeps (env : Env) (P : Sel → Prop)
    (htick : ∀ s : Sel, P s → P { s with hw := tick s.hw })
    (hbtn : ∀ (b : Btn) (l : Led) (s : Sel), P s → down env s.hw.now b →
      P (chooseBtn b l (roundsOf b) s)) :
    ∀ (n : Nat) (s : Sel), P s → P (chooseLoop n env s) := by
  intro n
  induction n with
  | zero => intro s h; exact h
  | succ n ih =>
    intro s h
    unfold chooseLoop
    split
    · exact ih _ (choosePass_keeps env P htick hbtn s h)
    · exact h

/-- Once `x` is set, further passes change nothing. -/
theorem chooseLoop_exit (env : Env) (n : Nat) (s : Sel) (h : ¬ s.x < 1) :
    chooseLoop n env s = s := by
  cases n with
  | zero => rfl
  | succ n => unfold chooseLoop; rw [if_neg h]

/-- Invariant of the loop of `ChooseDifficulty`: `x` is 0 and no button has been found
yet, or `x` is the number of rounds of the button found last; every button in the
trace was read as depressed. -/
theorem chooseLoop_inv (env : Env) (n : Nat) (hw : Hw) :
    ∃ evs, (chooseLoop n env ⟨hw, 0⟩).hw.picks = hw.picks ++ evs ∧
      (∀ e ∈ evs, down env e.time e.btn) ∧
      (((chooseLoop n env ⟨hw, 0⟩).x = 0 ∧ evs = []) ∨
        ∃ e, evs.getLast? = some e ∧ (chooseLoop n env ⟨hw, 0⟩).x = roundsOf e.btn) := by
  refine chooseLoop_keeps env
    (fun s => ∃ evs, s.hw.picks = hw.picks ++ evs ∧ (∀ e ∈ evs, down env e.time e.btn) ∧
      ((s.x = 0 ∧ evs = []) ∨ ∃ e, evs.getLast? = some e ∧ s.x = roundsOf e.btn))
    ?_ ?_ n ⟨hw, 0⟩ ⟨[], by simp, by simp, Or.inl ⟨rfl, rfl⟩⟩
  · rintro s ⟨evs, h1, h2, h3⟩
    exact ⟨evs, by simpa using h1, h2, h3⟩
  · rintro b l s ⟨evs, h1, h2, _⟩ hdown
    refine ⟨evs ++ [⟨b, s.hw.now⟩], ?_, ?_, Or.inr ⟨⟨b, s.hw.now⟩, by simp, rfl⟩⟩
    · show _ = _
      rw [chooseBtn_picks, h1, List.append_assoc]
    · intro e he
      simp only [List.mem_append, List.mem_singleton] at he
      rcases he with he | rfl
      · exact h2 e he
      · exact hdown

theorem roundsOf_cases (b : Btn) :
    roundsOf b = EASY ∨ roundsOf b = NORMAL ∨ roundsOf b = HARD ∨ roundsOf b = EXTREME := by
  cases b <;> simp [roundsOf]

/-- What a returning call of `ChooseDifficulty` has done. -/
theorem ChooseDifficulty_spec (n : Nat) (env : Env) (hw hw1 : Hw) (x : Nat)
    (h : ChooseDifficulty n env hw = some (x, hw1)) :
    ∃ evs e, hw1.picks = hw.picks ++ evs ∧ evs.getLast? = some e ∧ x = roundsOf e.btn ∧
      ∀ e1 ∈ evs, down env e1.time e1.btn := by
  unfold ChooseDifficulty at h
  simp only at h
  obtain ⟨evs, h1, h2, h3⟩ := chooseLoop_inv env n (promptOn hw)
  split at h
  · exact absurd h (by simp)
  · rename_i hx
    simp only [Option.some.injEq, Prod.mk.injEq] at h
    obtain ⟨rfl, rfl⟩ := h
    rcases h3 with ⟨h0, _⟩ | ⟨e, he, hxe⟩
    · omega
    · exact ⟨evs, e, by simpa using h1, he, hxe, h2⟩

/-! ## Several buttons held at once -/

/-- With the button lines held at fixed levels, one pass of `ChooseDifficulty` handles
every depressed button, in the order green, blue, yellow, red, and `x` is left at the
value of the last of them. -/
theorem choosePass_held (env : Env) (s : Sel) (D : Btn → Bool)
    (hheld : ∀ t b, down env t b ↔ D b = true) :
    (choosePass env s).x
        = (if D .RED then 16 else if D .YELLOW then 12 else if D .BLUE then 10
            else if D .GREEN then 8 else s.x) ∧
      (choosePass env s).hw.picks.map (fun e => e.btn)
        = s.hw.picks.map (fun e => e.btn) ++ [Btn.GREEN, Btn.BLUE, Btn.YELLOW, Btn.RED].filter D := by
  have hG : ∀ t, (env.P3IN t &&& GREEN_BTN = 0) ↔ D .GREEN = true := fun t => hheld t .GREEN
  have hB : ∀ t, (env.P3IN t &&& BLUE_BTN = 0) ↔ D .BLUE = true := fun t => hheld t .BLUE
  have hY : ∀ t, (env.P1IN t &&& YELLOW_BTN = 0) ↔ D .YELLOW = true := fun t => hheld t .YELLOW
  have hR : ∀ t, (env.P2IN t &&& RED_BTN = 0) ↔ D .RED = true := fun t => hheld t .RED
  unfold choosePass
  simp only [hG, hB, hY, hR]
  cases hg : D .GREEN <;> cases hb : D .BLUE <;> cases hy : D .YELLOW <;> cases hr : D .RED <;>
    simp [chooseBtn_picks, chooseBtn_x, List.filter, hg, hb, hy, hr]

@[simp] theorem tick_P2OUT (hw : Hw) : (tick hw).P2OUT = hw.P2OUT := by
  unfold tick; split <;> rfl

@[simp] theorem tick_P3OUT (hw : Hw) : (tick hw).P3OUT = hw.P3OUT := by
  unfold tick; split <;> rfl

@[simp] theorem tick_out (hw : Hw) : (tick hw).out = hw.out := by
  unfold tick; split <;> rfl

/-- One toggle of an LED and the `Wait(CENTI_SEC)` after it: the trace, and the
registers. -/
theorem toggle_step (l : Led) (hw : Hw) :
    (Wait (ledToggle l hw) CENTI_SEC).out
        = hw.out ++ [Out.write (regOf l) (regVal hw (regOf l) ^^^ maskOf l), Out.wait CENTI_SEC] ∧
      ∀ r, regVal (Wait (ledToggle l hw) CENTI_SEC) r
        = if r = regOf l then regVal hw r ^^^ maskOf l else regVal hw r := by
  constructor
  · cases l <;> simp [ledToggle, regOf, maskOf, regVal]
  · intro r
    cases l <;> cases r <;> simp [ledToggle, regOf, maskOf, regVal]

/-- The same for `k` toggles in a row. -/
theorem toggles_spec (l : Led) : ∀ (k : Nat) (hw : Hw),
    (Nat.iterate (fun h => Wait (ledToggle l h) CENTI_SEC) k hw).out
        = hw.out ++ toggleTrace (regOf l) (maskOf l) k (regVal hw (regOf l)) ∧
      ∀ r, regVal (Nat.iterate (fun h => Wait (ledToggle l h) CENTI_SEC) k hw) r
        = if r = regOf l then Nat.iterate (fun v => v ^^^ maskOf l) k (regVal hw r)
          else regVal hw r := by
  intro k
  induction k with
  | zero => intro hw; simp [toggleTrace]
  | succ k ih =>
    intro hw
    obtain ⟨h1, h2⟩ := toggle_step l hw
    obtain ⟨h3, h4⟩ := ih (Wait (ledToggle l hw) CENTI_SEC)
    simp only [Function.iterate_succ_apply]
    constructor
    · rw [h3, h1, h2, if_pos rfl, toggleTrace]
      simp
    · intro r
      rw [h4, h2]
      split <;> rfl

/-- Eight toggles leave the registers as they were. -/
theorem confirm_spec (l : Led) (hw : Hw) :
    (confirm l hw).out = hw.out ++ toggleTrace (regOf l) (maskOf l) 8 (regVal hw (regOf l)) ∧
      (confirm l hw).P2OUT = hw.P2OUT ∧ (confirm l hw).P3OUT = hw.P3OUT := by
  obtain ⟨h1, h2⟩ := toggles_spec l 8 hw
  refine ⟨h1, ?_, ?_⟩
  · have := h2 .P2OUT
    simp only [regVal, Function.iterate_succ_apply, Function.iterate_zero, id_eq,
      Nat.xor_cancel_right, ite_self] at this
    exact this
  · have := h2 .P3OUT
    simp only [regVal, Function.iterate_succ_apply, Function.iterate_zero, id_eq,
      Nat.xor_cancel_right, ite_self] at this
    exact this

theorem bic_bic (p m : Nat) : bic (bic p m) m = bic p m := by
  unfold bic
  rw [Nat.and_assoc, Nat.and_self]

/-- The body of an `if` of `ChooseDifficulty`: both registers are written with the
prompt LEDs off, the LED of the button is toggled eight times, and the registers are
left with the prompt LEDs off. -/
theorem chooseBtn_out (b : Btn) (rounds : Nat) (s : Sel) :
    (chooseBtn b (ledOfBtn b) rounds s).hw.out
        = s.hw.out ++ confirmTrace (bic s.hw.P2OUT (BLUE_LED ||| YELLOW_LED))
            (bic s.hw.P3OUT GREEN_LED) b ∧
      (chooseBtn b (ledOfBtn b) rounds s).hw.P2OUT = bic s.hw.P2OUT (BLUE_LED ||| YELLOW_LED) ∧
      (chooseBtn b (ledOfBtn b) rounds s).hw.P3OUT = bic s.hw.P3OUT GREEN_LED := by
  unfold chooseBtn
  simp only
  obtain ⟨h1, h2, h3⟩ := confirm_spec (ledOfBtn b)
    (promptOff { s.hw with picks := s.hw.picks ++ [⟨b, s.hw.now⟩] })
  refine ⟨?_, by rw [h2]; rfl, by rw [h3]; rfl⟩
  rw [h1]
  cases b <;> simp [promptOff, confirmTrace, ledOfBtn, regOf, regVal]

/-- One `if` of a pass of `ChooseDifficulty` when the registers hold, or are about to be
given, the values `q2`, `q3` with the prompt LEDs off: a depressed button adds its
confirmation to the trace. -/
theorem chooseIf_out (q2 q3 : Nat) (base : List Out) (b : Btn) (rounds : Nat)
    (c : Sel → Prop) [∀ s, Decidable (c s)] (s : Sel) (T : List Btn)
    (h : bic s.hw.P2OUT (BLUE_LED ||| YELLOW_LED) = q2 ∧ bic s.hw.P3OUT GREEN_LED = q3 ∧
      s.hw.out = base ++ T.flatMap (confirmTrace q2 q3) ∧
      (T = [] ∨ (s.hw.P2OUT = q2 ∧ s.hw.P3OUT = q3))) :
    bic (if c s then chooseBtn b (ledOfBtn b) rounds s else s).hw.P2OUT
        (BLUE_LED ||| YELLOW_LED) = q2 ∧
      bic (if c s then chooseBtn b (ledOfBtn b) rounds s else s).hw.P3OUT GREEN_LED = q3 ∧
      (if c s then chooseBtn b (ledOfBtn b) rounds s else s).hw.out
        = base ++ (T ++ if c s then [b] else []).flatMap (confirmTrace q2 q3) ∧
      ((T ++ if c s then [b] else []) = [] ∨
        ((if c s then chooseBtn b (ledOfBtn b) rounds s else s).hw.P2OUT = q2 ∧
          (if c s then chooseBtn b (ledOfBtn b) rounds s else s).hw.P3OUT = q3)) := by
  obtain ⟨h2, h3, hout, hT⟩ := h
  by_cases hc : c s
  · simp only [if_pos hc]
    obtain ⟨e1, e2, e3⟩ := chooseBtn_out b rounds s
    rw [e1, e2, e3, h2, h3, hout]
    refine ⟨?_, ?_, by simp [List.flatMap_append], Or.inr ⟨rfl, rfl⟩⟩
    · rw [← h2, bic_bic]
    · rw [← h3, bic_bic]
  · simp only [if_neg hc, List.append_nil]
    exact ⟨h2, h3, hout, hT⟩

/-- With the button lines held at fixed levels, one pass of `ChooseDifficulty` confirms
every depressed button in the order green, blue, yellow, red: for each of them both
registers are written with the prompt LEDs off and the LED of the button is toggled
eight times. -/
theorem choosePass_held_out (env : Env) (s : Sel) (D : Btn → Bool)
    (hheld : ∀ t b, down env t b ↔ D b = true) :
    (choosePass env s).hw.out
        = s.hw.out ++ ([Btn.GREEN, Btn.BLUE, Btn.YELLOW, Btn.RED].filter D).flatMap
            (confirmTrace (bic s.hw.P2OUT (BLUE_LED ||| YELLOW_LED))
              (bic s.hw.P3OUT GREEN_LED)) ∧
      ((∃ b, D b = true) →
        (choosePass env s).hw.P2OUT = bic s.hw.P2OUT (BLUE_LED ||| YELLOW_LED) ∧
          (choosePass env s).hw.P3OUT = bic s.hw.P3OUT GREEN_LED) := by
  have hG : ∀ t, (env.P3IN t &&& GREEN_BTN = 0) ↔ D .GREEN = true := fun t => hheld t .GREEN
  have hB : ∀ t, (env.P3IN t &&& BLUE_BTN = 0) ↔ D .BLUE = true := fun t => hheld t .BLUE
  have hY : ∀ t, (env.P1IN t &&& YELLOW_BTN = 0) ↔ D .YELLOW = true := fun t => hheld t .YELLOW
  have hR : ∀ t, (env.P2IN t &&& RED_BTN = 0) ↔ D .RED = true := fun t => hheld t .RED
  have h0 : bic ({ s with hw := tick s.hw } : Sel).hw.P2OUT (BLUE_LED ||| YELLOW_LED)
        = bic s.hw.P2OUT (BLUE_LED ||| YELLOW_LED) ∧
      bic ({ s with hw := tick s.hw } : Sel).hw.P3OUT GREEN_LED = bic s.hw.P3OUT GREEN_LED ∧
      ({ s with hw := tick s.hw } : Sel).hw.out
        = s.hw.out ++ ([] : List Btn).flatMap
            (confirmTrace (bic s.hw.P2OUT (BLUE_LED ||| YELLOW_LED)) (bic s.hw.P3OUT GREEN_LED)) ∧
      (([] : List Btn) = [] ∨
        (({ s with hw := tick s.hw } : Sel).hw.P2OUT = bic s.hw.P2OUT (BLUE_LED ||| YELLOW_LED) ∧
          ({ s with hw := tick s.hw } : Sel).hw.P3OUT = bic s.hw.P3OUT GREEN_LED)) := by
    simp
  have h4 := chooseIf_out _ _ _ .RED 16 (fun s => env.P2IN s.hw.now &&& RED_BTN = 0) _ _
    (chooseIf_out _ _ _ .YELLOW 12 (fun s => env.P1IN s.hw.now &&& YELLOW_BTN = 0) _ _
    (chooseIf_out _ _ _ .BLUE 10 (fun s => env.P3IN s.hw.now &&& BLUE_BTN = 0) _ _
    (chooseIf_out _ _ _ .GREEN 8 (fun s => env.P3IN s.hw.now &&& GREEN_BTN = 0) _ _ h0)))
  have hlist : ∀ (g b y r : Prop) [Decidable g] [Decidable b] [Decidable y] [Decidable r],
      (g ↔ D .GREEN = true) → (b ↔ D .BLUE = true) → (y ↔ D .YELLOW = true) →
      (r ↔ D .RED = true) →
      ((([] ++ if g then [Btn.GREEN] else []) ++ if b then [Btn.BLUE] else [])
          ++ if y then [Btn.YELLOW] else []) ++ (if r then [Btn.RED] else [])
        = [Btn.GREEN, Btn.BLUE, Btn.YELLOW, Btn.RED].filter D := by
    intro g b y r _ _ _ _ eg eb ey er
    simp only [eg, eb, ey, er]
    cases hg : D .GREEN <;> cases hb : D .BLUE <;> cases hy : D .YELLOW <;> cases hr : D .RED <;>
      simp [List.filter, hg, hb, hy, hr]
  rw [hlist _ _ _ _ (hG _) (hB _) (hY _) (hR _)] at h4
  obtain ⟨_, _, hout, hreg⟩ := h4
  refine ⟨hout, ?_⟩
  rintro ⟨b, hb⟩
  rcases hreg with hnil | hreg
  · exfalso
    have : b ∈ [Btn.GREEN, Btn.BLUE, Btn.YELLOW, Btn.RED].filter D := by
      rw [List.mem_filter]
      exact ⟨by cases b <;> simp, hb⟩
    rw [hnil] at this
    exact absurd this (by simp)
  · exact hreg

theorem chooseLoop_succ (env : Env) (n : Nat) (s : Sel) (h : s.x < 1) :
    chooseLoop (n + 1) env s = chooseLoop n env (choosePass env s) := by
  rw [chooseLoop, if_pos h]

theorem bic_prompt (p m : Nat) (hm : m &&& (0xFF ^^^ m) = 0) : bic (p ||| m) m = bic p m := by
  unfold bic
  rw [and_or_right, hm, Nat.or_zero]

/-- With the button lines held at fixed levels and some button depressed,
`ChooseDifficulty` returns after its first pass; the value is that of the last
depressed button in the order green, blue, yellow, red; the output is the prompt
followed by the confirmation of every depressed button in that order, and the prompt
LEDs are off at return. -/
theorem ChooseDifficulty_held (n : Nat) (env : Env) (hw : Hw) (D : Btn → Bool)
    (hheld : ∀ t b, down env t b ↔ D b = true) (hsome : ∃ b, D b = true) :
    ∃ hw1, ChooseDifficulty (n + 1) env hw
        = some (if D .RED then EXTREME else if D .YELLOW then HARD else if D .BLUE then NORMAL
            else EASY, hw1) ∧
      hw1.picks.map (fun e => e.btn)
        = hw.picks.map (fun e => e.btn) ++ [Btn.GREEN, Btn.BLUE, Btn.YELLOW, Btn.RED].filter D ∧
      hw1.out = hw.out
        ++ [Out.write .P3OUT (hw.P3OUT ||| GREEN_LED),
            Out.write .P2OUT (hw.P2OUT ||| (BLUE_LED ||| YELLOW_LED))]
        ++ ([Btn.GREEN, Btn.BLUE, Btn.YELLOW, Btn.RED].filter D).flatMap
            (confirmTrace (bic hw.P2OUT (BLUE_LED ||| YELLOW_LED)) (bic hw.P3OUT GREEN_LED)) ∧
      hw1.P2OUT = bic hw.P2OUT (BLUE_LED ||| YELLOW_LED) ∧
      hw1.P3OUT = bic hw.P3OUT GREEN_LED := by
  obtain ⟨hx, hp⟩ := choosePass_held env ⟨promptOn hw, 0⟩ D hheld
  obtain ⟨hout, hreg⟩ := choosePass_held_out env ⟨promptOn hw, 0⟩ D hheld
  obtain ⟨hr2, hr3⟩ := hreg hsome
  have e2 : bic (promptOn hw).P2OUT (BLUE_LED ||| YELLOW_LED)
      = bic hw.P2OUT (BLUE_LED ||| YELLOW_LED) := bic_prompt _ _ (by decide)
  have e3 : bic (promptOn hw).P3OUT GREEN_LED = bic hw.P3OUT GREEN_LED :=
    bic_prompt _ _ (by decide)
  have hval : (choosePass env ⟨promptOn hw, 0⟩).x
      = if D .RED then EXTREME else if D .YELLOW then HARD else if D .BLUE then NORMAL
          else EASY := by
    rw [hx]
    obtain ⟨b, hb⟩ := hsome
    cases b <;> simp [hb, EXTREME, HARD, NORMAL, EASY]
  have hpos : ¬ (choosePass env ⟨promptOn hw, 0⟩).x < 1 := by
    rw [hval]; simp only [EXTREME, HARD, NORMAL, EASY]; split_ifs <;> omega
  refine ⟨(choosePass env ⟨promptOn hw, 0⟩).hw, ?_, by simpa using hp, ?_, ?_, ?_⟩
  · have hloop : chooseLoop (n + 1) env ⟨promptOn hw, 0⟩ = choosePass env ⟨promptOn hw, 0⟩ := by
      rw [chooseLoop_succ env n _ (by simp), chooseLoop_exit env n _ hpos]
    unfold ChooseDifficulty
    simp only [hloop]
    rw [if_neg hpos, hval]
  · rw [hout]
    show (promptOn hw).out ++ List.flatMap _ (confirmTrace
        (bic (promptOn hw).P2OUT (BLUE_LED ||| YELLOW_LED)) (bic (promptOn hw).P3OUT GREEN_LED))
      = _
    have eo : (promptOn hw).out = hw.out ++ [Out.write .P3OUT (hw.P3OUT ||| GREEN_LED),
        Out.write .P2OUT (hw.P2OUT ||| (BLUE_LED ||| YELLOW_LED))] := by
      simp [promptOn, regVal]
    rw [e2, e3, eo]
  · rw [hr2]; exact e2
  · rw [hr3]; exact e3

/-- The trace of comparisons only grows. -/
theorem answerLoop_cmps_ext (env : Env) (sequence : List Int) (round n : Nat) (s : Ans) :
    ∃ evs, (answerLoop n env sequence round s).hw.cmps = s.hw.cmps ++ evs :=
  answerLoop_keeps env sequence round (fun x => ∃ evs, x.hw.cmps = s.hw.cmps ++ evs)
    (fun x ⟨evs, h⟩ => ⟨evs, by simpa using h⟩)
    (fun b x ⟨evs, h⟩ _ => ⟨evs ++ [⟨b, codeOf b, x.i, x.hw.now⟩], by
      show _ = _
      rw [answerBtn_cmps, h, List.append_assoc]⟩) n s ⟨[], by simp⟩

/-- The first comparison of a pass of `GetAnswer` is made for the first button, in the
order red, green, blue, yellow, whose line reads 0 when the pass begins. -/
theorem answerPass_first (env : Env) (sequence : List Int) (s : Ans) (b : Btn)
    (hb : down env (s.hw.now + 1) b)
    (hfirst : ∀ b1, scanRank b1 < scanRank b → ¬ down env (s.hw.now + 1) b1) :
    ∃ rest, (answerPass env sequence s).hw.cmps
      = s.hw.cmps ++ ⟨b, codeOf b, s.i, s.hw.now + 1⟩ :: rest := by
  have hkeep : ∀ (b1 : Btn) (x : Ans),
      (∃ rest, x.hw.cmps = s.hw.cmps ++ ⟨b, codeOf b, s.i, s.hw.now + 1⟩ :: rest) →
      down env x.hw.now b1 →
      ∃ rest, (answerBtn env sequence b1 (codeOf b1) x).hw.cmps
        = s.hw.cmps ++ ⟨b, codeOf b, s.i, s.hw.now + 1⟩ :: rest := by
    rintro b1 x ⟨rest, h⟩ _
    exact ⟨rest ++ [⟨b1, codeOf b1, x.i, x.hw.now⟩], by rw [answerBtn_cmps, h]; simp⟩
  have hdet : ∃ rest, (answerBtn env sequence b (codeOf b) { s with hw := tick s.hw }).hw.cmps
      = s.hw.cmps ++ ⟨b, codeOf b, s.i, s.hw.now + 1⟩ :: rest :=
    ⟨[], by rw [answerBtn_cmps]; simp⟩
  have hR := hfirst .RED
  have hG := hfirst .GREEN
  have hB := hfirst .BLUE
  unfold answerPass
  cases b with
  | RED =>
    refine answerIf_keeps env sequence _ .YELLOW (hkeep .YELLOW)
        (fun s => env.P1IN s.hw.now &&& YELLOW_BTN = 0) (fun _ h => h) _
      (answerIf_keeps env sequence _ .BLUE (hkeep .BLUE)
        (fun s => env.P3IN s.hw.now &&& BLUE_BTN = 0) (fun _ h => h) _
      (answerIf_keeps env sequence _ .GREEN (hkeep .GREEN)
        (fun s => env.P3IN s.hw.now &&& GREEN_BTN = 0) (fun _ h => h) _ ?_))
    have h1 : env.P2IN ({ s with hw := tick s.hw } : Ans).hw.now &&& RED_BTN = 0 := by
      simpa using hb
    rw [if_pos h1]
    exact hdet
  | GREEN =>
    refine answerIf_keeps env sequence _ .YELLOW (hkeep .YELLOW)
        (fun s => env.P1IN s.hw.now &&& YELLOW_BTN = 0) (fun _ h => h) _
      (answerIf_keeps env sequence _ .BLUE (hkeep .BLUE)
        (fun s => env.P3IN s.hw.now &&& BLUE_BTN = 0) (fun _ h => h) _ ?_)
    have h1 : ¬ env.P2IN ({ s with hw := tick s.hw } : Ans).hw.now &&& RED_BTN = 0 := by
      simpa using hR (by decide)
    have h2 : env.P3IN ({ s with hw := tick s.hw } : Ans).hw.now &&& GREEN_BTN = 0 := by
      simpa using hb
    rw [if_neg h1, if_pos h2]
    exact hdet
  | BLUE =>
    refine answerIf_keeps env sequence _ .YELLOW (hkeep .YELLOW)
        (fun s => env.P1IN s.hw.now &&& YELLOW_BTN = 0) (fun _ h => h) _ ?_
    have h1 : ¬ env.P2IN ({ s with hw := tick s.hw } : Ans).hw.now &&& RED_BTN = 0 := by
      simpa using hR (by decide)
    have h2 : ¬ env.P3IN ({ s with hw := tick s.hw } : Ans).hw.now &&& GREEN_BTN = 0 := by
      simpa using hG (by decide)
    have h3 : env.P3IN ({ s with hw := tick s.hw } : Ans).hw.now &&& BLUE_BTN = 0 := by
      simpa using hb
    rw [if_neg h1, if_neg h2, if_pos h3]
    exact hdet
  | YELLOW =>
    have h1 : ¬ env.P2IN ({ s with hw := tick s.hw } : Ans).hw.now &&& RED_BTN = 0 := by
      simpa using hR (by decide)
    have h2 : ¬ env.P3IN ({ s with hw := tick s.hw } : Ans).hw.now &&& GREEN_BTN = 0 := by
      simpa using hG (by decide)
    have h3 : ¬ env.P3IN ({ s with hw := tick s.hw } : Ans).hw.now &&& BLUE_BTN = 0 := by
      simpa using hB (by decide)
    have h4 : env.P1IN ({ s with hw := tick s.hw } : Ans).hw.now &&& YELLOW_BTN = 0 := by
      simpa using hb
    simp only
    rw [if_neg h1, if_neg h2, if_neg h3, if_pos h4]
    exact hdet

theorem answerLoop_succ (env : Env) (sequence : List Int) (round n : Nat) (s : Ans)
    (h : s.i ≤ round ∧ s.game_over = 0) :
    answerLoop (n + 1) env sequence round s
      = answerLoop n env sequence round (answerPass env sequence s) := by
  rw [answerLoop, if_pos h]

/-- The first comparison of `GetAnswer` is made for the first button, in the order red,
green, blue, yellow, whose line reads 0 at the first poll. -/
theorem answerLoop_first (env : Env) (sequence : List Int) (round n : Nat) (hw : Hw) (b : Btn)
    (hb : down env (hw.now + 1) b)
    (hfirst : ∀ b1, scanRank b1 < scanRank b → ¬ down env (hw.now + 1) b1) :
    ∃ rest, (answerLoop (n + 1) env sequence round ⟨hw, 0, 0⟩).hw.cmps
      = hw.cmps ++ ⟨b, codeOf b, 0, hw.now + 1⟩ :: rest := by
  obtain ⟨rest, h⟩ := answerPass_first env sequence ⟨hw, 0, 0⟩ b hb hfirst
  obtain ⟨evs, h2⟩ := answerLoop_cmps_ext env sequence round n (answerPass env sequence ⟨hw, 0, 0⟩)
  refine ⟨rest ++ evs, ?_⟩
  rw [answerLoop_succ _ _ _ _ _ (by simp), h2, h]
  simp

/-! ## Debouncing in `GetAnswer` -/

/-- In a trace whose entries lie more than `G` clocks apart, the window of `G` clocks
that starts at an entry holds that entry only. -/
theorem window_single (G : Nat) : ∀ (l : List Cmp),
    l.Pairwise (fun a b => a.time + G < b.time) →
    ∀ c ∈ l, l.countP (fun e => decide (c.time ≤ e.time ∧ e.time ≤ c.time + G)) = 1 := by
  intro l
  induction l with
  | nil => intro _ c hc; simp at hc
  | cons x xs ih =>
    intro hp c hc
    rw [List.pairwise_cons] at hp
    obtain ⟨hx, hxs⟩ := hp
    rw [List.countP_cons]
    rcases List.mem_cons.mp hc with rfl | hc
    · have h0 : xs.countP (fun e => decide (c.time ≤ e.time ∧ e.time ≤ c.time + G)) = 0 := by
        rw [List.countP_eq_zero]
        intro y hy
        have := hx y hy
        simp only [decide_eq_true_eq, not_and, not_le]
        intro _
        exact this
      rw [h0]
      simp
    · have := hx c hc
      rw [ih hxs c hc]
      have hn : ¬ (c.time ≤ x.time ∧ x.time ≤ c.time + G) := by omega
      simp [hn]

/-- Invariant of the loop of `GetAnswer`: the comparisons made so far lie more than
`QUART_SEC - 1` timer periods apart from each other and from the present, each was
made for a button whose line read 0 at that time, and `i` has gone up by at most one
for each of them. -/
theorem answerLoop_debounce (env : Env) (sequence : List Int) (round n : Nat) (hw : Hw) :
    ∃ evs, (answerLoop n env sequence round ⟨hw, 0, 0⟩).hw.cmps = hw.cmps ++ evs ∧
      evs.Pairwise (fun a b => a.time + 24 * period hw < b.time) ∧
      (∀ c ∈ evs, down env c.time c.btn) ∧
      (answerLoop n env sequence round ⟨hw, 0, 0⟩).i ≤ evs.length := by
  have key := answerLoop_keeps env sequence round
    (fun x => x.hw.TA0CCR0 = hw.TA0CCR0 ∧ ∃ evs, x.hw.cmps = hw.cmps ++ evs ∧
      evs.Pairwise (fun a b => a.time + 24 * period hw < b.time) ∧
      (∀ c ∈ evs, c.time + 24 * period hw < x.hw.now) ∧
      (∀ c ∈ evs, down env c.time c.btn) ∧ x.i ≤ evs.length)
    ?_ ?_ n ⟨hw, 0, 0⟩ ⟨rfl, [], by simp, by simp, by simp, by simp, by simp⟩
  · obtain ⟨_, evs, h1, h2, _, h4, h5⟩ := key
    exact ⟨evs, h1, h2, h4, h5⟩
  · rintro x ⟨hc, evs, h1, h2, h3, h4, h5⟩
    refine ⟨by simpa using hc, evs, by simpa using h1, h2, ?_, h4, h5⟩
    intro c hcm
    have := h3 c hcm
    simp only [tick_now]
    omega
  · rintro b x ⟨hc, evs, h1, h2, h3, h4, h5⟩ hdown
    have hnow := answerBtn_now env sequence b (codeOf b) x
    have hper : period x.hw = period hw := by simp [period, hc]
    rw [hper] at hnow
    refine ⟨?_, evs ++ [⟨b, codeOf b, x.i, x.hw.now⟩], ?_, ?_, ?_, ?_, ?_⟩
    · show _ = _
      rw [answerBtn_TA0CCR0, hc]
    · show _ = _
      rw [answerBtn_cmps, h1, List.append_assoc]
    · rw [List.pairwise_append]
      refine ⟨h2, by simp, ?_⟩
      intro a ha c hcm
      rw [List.mem_singleton] at hcm
      subst hcm
      exact h3 a ha
    · intro c hcm
      simp only [List.mem_append, List.mem_singleton] at hcm
      rcases hcm with hcm | rfl
      · have := h3 c hcm
        omega
      · exact hnow
    · intro c hcm
      simp only [List.mem_append, List.mem_singleton] at hcm
      rcases hcm with hcm | rfl
      · exact h4 c hcm
      · exact hdown
    · have := answerBtn_i env sequence b (codeOf b) x
      simp only [List.length_append, List.length_singleton]
      omega

theorem answerBtn_i_ge (env : Env) (sequence : List Int) (b : Btn) (code : Int) (s : Ans) :
    s.i ≤ (answerBtn env sequence b code s).i := by
  unfold answerBtn; simp only; split <;> simp

/-- In a trace whose entries lie more than `G` clocks apart, a set of entries that all
lie within `G` clocks after one of them, `c`, holds `c` only. -/
theorem countP_single (G : Nat) (Q : Cmp → Bool) : ∀ (l : List Cmp),
    l.Pairwise (fun a b => a.time + G < b.time) →
    ∀ c ∈ l, Q c = true → (∀ e ∈ l, Q e = true → c.time ≤ e.time ∧ e.time ≤ c.time + G) →
      l.countP Q = 1 := by
  intro l
  induction l with
  | nil => intro _ c hc; simp at hc
  | cons x xs ih =>
    intro hp c hc hQ hall
    rw [List.pairwise_cons] at hp
    obtain ⟨hx, hxs⟩ := hp
    rw [List.countP_cons]
    by_cases hqx : Q x = true
    · have hcx := hall x (List.mem_cons_self _ _) hqx
      have h0 : xs.countP Q = 0 := by
        rw [List.countP_eq_zero]
        intro y hy hqy
        have h1 := hx y hy
        have h2 := hall y (List.mem_cons_of_mem _ hy) hqy
        rcases List.mem_cons.mp hc with rfl | hcm
        · omega
        · have := hx c hcm
          omega
      rw [h0, if_pos hqx]
    · rcases List.mem_cons.mp hc with rfl | hcm
      · exact absurd hQ hqx
      · rw [ih hxs c hcm hQ (fun e he => hall e (List.mem_cons_of_mem _ he)), if_neg hqx]

/-- Invariant of the loop of `GetAnswer`: the first comparison is made with `i = 0`,
each comparison is made with the `i` of the comparison before it or one more, and `i`
is that of the last comparison or one more. -/
theorem answerLoop_steps (env : Env) (sequence : List Int) (round n : Nat) (hw : Hw) :
    ∃ evs, (answerLoop n env sequence round ⟨hw, 0, 0⟩).hw.cmps = hw.cmps ++ evs ∧
      evs.Chain' (fun a b => a.index ≤ b.index ∧ b.index ≤ a.index + 1) ∧
      (∀ c ∈ evs.head?, c.index = 0) ∧
      (∀ c ∈ evs.getLast?, c.index ≤ (answerLoop n env sequence round ⟨hw, 0, 0⟩).i ∧
        (answerLoop n env sequence round ⟨hw, 0, 0⟩).i ≤ c.index + 1) := by
  have key := answerLoop_keeps env sequence round
    (fun x => ∃ evs, x.hw.cmps = hw.cmps ++ evs ∧
      evs.Chain' (fun a b => a.index ≤ b.index ∧ b.index ≤ a.index + 1) ∧
      (∀ c ∈ evs.head?, c.index = 0) ∧
      (∀ c ∈ evs.getLast?, c.index ≤ x.i ∧ x.i ≤ c.index + 1) ∧ (evs = [] → x.i = 0))
    ?_ ?_ n ⟨hw, 0, 0⟩ ⟨[], by simp, by simp, by simp, by simp, by simp⟩
  · obtain ⟨evs, h1, h2, h3, h4, _⟩ := key
    exact ⟨evs, h1, h2, h3, h4⟩
  · rintro x ⟨evs, h1, h2, h3, h4, h5⟩
    exact ⟨evs, by simpa using h1, h2, h3, h4, h5⟩
  · rintro b x ⟨evs, h1, h2, h3, h4, h5⟩ _
    have hle := answerBtn_i env sequence b (codeOf b) x
    have hge := answerBtn_i_ge env sequence b (codeOf b) x
    refine ⟨evs ++ [⟨b, codeOf b, x.i, x.hw.now⟩], ?_, ?_, ?_, ?_, ?_⟩
    · show _ = _
      rw [answerBtn_cmps, h1, List.append_assoc]
    · rw [List.chain'_append]
      refine ⟨h2, by simp, ?_⟩
      intro a ha y hy
      simp only [List.head?_cons, Option.mem_def, Option.some.injEq] at hy
      subst hy
      exact h4 a ha
    · intro c hc
      cases evs with
      | nil =>
        simp only [List.nil_append, List.head?_cons, Option.mem_def, Option.some.injEq] at hc
        subst hc
        exact h5 rfl
      | cons e es =>
        exact h3 c (by simpa using hc)
    · intro c hc
      simp only [List.getLast?_append, List.getLast?_singleton, Option.mem_def] at hc
      have hc1 : (⟨b, codeOf b, x.i, x.hw.now⟩ : Cmp) = c := Option.some.inj hc
      subst hc1
      exact ⟨hge, hle⟩
    · intro h
      simp at h

/-! ## The claims -/

/-- C1: after `MakeSequence(sequence, first, second)` on two 16-bit samples, element
`k` of the sequence (for `k` in 0..15) is
`((first >> (15-k)) & 1) + 3 * ((second >> (15-k)) & 1)`; hence two pairs of samples
that agree on bit `15-k` of the first and on bit `15-k` of the second sample give the
same element `k`. -/
theorem C1_MakeSequence_bits (sequence : List Int) (first second k : Nat)
    (hlen : sequence.length = 16) (hf : first < 65536) (hs : second < 65536) (hk : k < 16) :
    (MakeSequence sequence (toInt16 first) (toInt16 second))[k]?
        = some ((((first >>> (15 - k)) &&& 1) + 3 * ((second >>> (15 - k)) &&& 1) : Nat) : Int) ∧
    ∀ first2 second2 : Nat, first2 < 65536 → second2 < 65536 →
      (first2 >>> (15 - k)) &&& 1 = (first >>> (15 - k)) &&& 1 →
      (second2 >>> (15 - k)) &&& 1 = (second >>> (15 - k)) &&& 1 →
      (MakeSequence sequence (toInt16 first2) (toInt16 second2))[k]?
        = (MakeSequence sequence (toInt16 first) (toInt16 second))[k]? := by
  refine ⟨MakeSequence_getElem sequence first second k hlen hf hs hk, ?_⟩
  intro first2 second2 hf2 hs2 h1 h2
  rw [MakeSequence_getElem sequence first2 second2 k hlen hf2 hs2 hk,
    MakeSequence_getElem sequence first second k hlen hf hs hk, h1, h2]

/-- C1 at the samples 0x5555 and 0xAAAA: element 3 is 1 (green). -/
theorem C1_MakeSequence_bits_witness :
    (MakeSequence (List.replicate 16 0) (toInt16 0x5555) (toInt16 0xAAAA))[3]? = some 1 :=
  (C1_MakeSequence_bits (List.replicate 16 0) 0x5555 0xAAAA 3 rfl (by decide) (by decide)
    (by decide)).1

/-- C2 as stated fails.  With a timer period of 10 clocks, the counter at 5 and the
overflow flag already set at entry, `Wait(1)` returns after 5 clocks, which is less
than one period.  And for `n = 32767` the loop of `Wait(n)` never ends: the 16-bit
counter `i` cannot pass `n`, so the guard `i <= t` holds after any number of passes. -/
theorem C2_stale_flag_returns_early :
    staleFlag.TAIFG = true ∧ period staleFlag = 10 ∧
    (Wait staleFlag 1).now = staleFlag.now + 5 ∧
    ¬ (staleFlag.now + 1 * period staleFlag ≤ (Wait staleFlag 1).now) ∧
    ∀ polls : Nat, (WaitLoop polls boot 0 32767).2 ≤ 32767 :=
  ⟨by decide, by decide, by decide, by decide, fun polls => WaitLoop_int_max polls boot 0 (by decide)⟩

/-- C2 (amended): for every `n` with `0 ≤ n < 32767` and every state of the timer at
entry, the loop of `Wait(n)` ends through its guard with `i = n + 1`, at most `n + 1`
timer periods and more than `n - 1` timer periods after entry; when the overflow flag
is clear at entry it ends more than `n` timer periods after entry. -/
theorem C2_Wait_duration (hw : Hw) (n : Nat) (hn : n < 32767) :
    (WaitLoop (waitPolls hw n) { hw with out := hw.out ++ [Out.wait n] } 0 n).2 = n + 1 ∧
    (Wait hw n).now ≤ hw.now + (n + 1) * period hw ∧
    hw.now + (n - 1) * period hw < (Wait hw n).now ∧
    (hw.TAIFG = false → hw.now + n * period hw < (Wait hw n).now) := by
  obtain ⟨e, r, _, _, _, h4⟩ := WaitLoop_spec { hw with out := hw.out ++ [Out.wait n] } n hn
  have hp : waitPolls hw n = waitPolls { hw with out := hw.out ++ [Out.wait n] } n := rfl
  refine ⟨by rw [hp, h4], Wait_now_le hw n hn, ?_, ?_⟩
  · have := Wait_now_ge hw n hn
    omega
  · intro hf
    obtain ⟨e, r, -, -, h3, h⟩ := Wait_spec hw n hn
    have := h3 hf
    rw [h]
    simp only
    omega

/-- C2 (amended) on the board as `main` sets it up, for `Wait(QUART_SEC)`. -/
theorem C2_Wait_duration_witness :
    (Wait boot QUART_SEC).now ≤ boot.now + (25 + 1) * period boot ∧
    boot.now + 25 * period boot < (Wait boot QUART_SEC).now :=
  ⟨(C2_Wait_duration boot 25 (by decide)).2.1, (C2_Wait_duration boot 25 (by decide)).2.2.2 rfl⟩

/-- C3: when `ChooseDifficulty` returns, a button has been found depressed during the
call (its line read 0 at the time of the poll), the value returned is the number of
rounds of the button found last, 8 (EASY) for green, 10 (NORMAL) for blue, 12 (HARD)
for yellow, 16 (EXTREME) for red, and so it is one of 8, 10, 12, 16. -/
theorem C3_ChooseDifficulty_value (n : Nat) (env : Env) (hw hw1 : Hw) (x : Nat)
    (h : ChooseDifficulty n env hw = some (x, hw1)) :
    (x = 8 ∨ x = 10 ∨ x = 12 ∨ x = 16) ∧
    ∃ evs e, hw1.picks = hw.picks ++ evs ∧ evs.getLast? = some e ∧ x = roundsOf e.btn ∧
      (∀ e1 ∈ evs, down env e1.time e1.btn) ∧
      roundsOf .GREEN = 8 ∧ roundsOf .BLUE = 10 ∧ roundsOf .YELLOW = 12 ∧ roundsOf .RED = 16 := by
  obtain ⟨evs, e, h1, h2, h3, h4⟩ := ChooseDifficulty_spec n env hw hw1 x h
  refine ⟨?_, evs, e, h1, h2, h3, h4, rfl, rfl, rfl, rfl⟩
  rw [h3]
  exact roundsOf_cases e.btn

/-- C3 with the green button held: `ChooseDifficulty` returns 8. -/
theorem C3_ChooseDifficulty_value_witness :
    ChooseDifficulty 1 greenHeld fastBoard = some (8, easyChosen) ∧
    ∃ evs e, easyChosen.picks = fastBoard.picks ++ evs ∧ evs.getLast? = some e ∧
      8 = roundsOf e.btn :=
  ⟨by decide,
    let ⟨_, evs, e, h1, h2, h3, _⟩ :=
      C3_ChooseDifficulty_value 1 greenHeld fastBoard easyChosen 8 (by decide)
    ⟨evs, e, h1, h2, h3⟩⟩

/-- C4 fails on the code: in round 0 with the sequence red, green, red, ... and the red
and the green button both held down, `GetAnswer` returns 1 after two comparisons made
in one pass of its loop, with `i = 2` instead of `round + 1 = 1`: the second press was
read and compared with `sequence[1]` after the round was complete. -/
theorem C4_extra_press_consumed :
    (GetAnswer 1 redGreenHeld fastBoard redGreenRed 0).map Prod.fst = some 1 ∧
    (answerLoop 1 redGreenHeld redGreenRed 0 ⟨fastBoard, 0, 0⟩).i = 2 ∧
    (answerLoop 1 redGreenHeld redGreenRed 0 ⟨fastBoard, 0, 0⟩).hw.cmps
      = [⟨.RED, 0, 0, 1⟩, ⟨.GREEN, 1, 1, 27⟩] := by
  decide

/-- C5: when a comparison in `GetAnswer` finds a colour other than the one expected,
`GetAnswer` returns 0; the game loop then ends without a call of `CorrectAnswer`, with
`round` unchanged, and `Loss` runs, not `Win`: after the call of `GetAnswer` the only
call is that of `Loss`, so there is no second try. -/
theorem C5_wrong_press_ends_game (n g : Nat) (env : Env) (sequence : List Int)
    (difficulty : Nat) (p : Play) (evs : List Cmp) (c : Cmp)
    (hs : p.game_state = 1) (hr : p.round < difficulty)
    (hcm : (answerLoop g env sequence p.round ⟨answerEntry env sequence p, 0, 0⟩).hw.cmps
      = (answerEntry env sequence p).cmps ++ evs)
    (hc : c ∈ evs) (hne : readSeq env sequence c.index ≠ c.colour) :
    ∃ hw4, GetAnswer g env (answerEntry env sequence p) sequence p.round = some (0, hw4) ∧
      playLoop (n + 1) g env sequence difficulty p
        = some ⟨Wait (Wait hw4 TEN_MS) TEN_MS, 0, p.round⟩ ∧
      ∃ hwEnd, playFrom (n + 1) g env sequence difficulty p = some hwEnd ∧
        hwEnd.calls
          = p.hw.calls ++ [Call.BlinkLeds p.round, Call.GetAnswer p.round, Call.Loss] := by
  obtain ⟨evs1, h1, h2⟩ := answerLoop_matched env sequence p.round g (answerEntry env sequence p)
  have hevs : evs1 = evs := List.append_cancel_left (h1.symm.trans hcm)
  subst hevs
  have hgo : (answerLoop g env sequence p.round ⟨answerEntry env sequence p, 0, 0⟩).game_over ≠ 0 :=
    fun h0 => hne (h2 h0 c hc)
  have hg : GetAnswer g env (answerEntry env sequence p) sequence p.round
      = some (0, (answerLoop g env sequence p.round ⟨answerEntry env sequence p, 0, 0⟩).hw) := by
    unfold GetAnswer
    simp only
    rw [if_neg (fun h => hgo h.2), if_neg hgo]
  refine ⟨_, hg, ?_, ?_⟩
  · rw [playLoop, if_pos hs, playPass_wrong g env sequence difficulty p _ hr hg]
    simp only
    cases n <;> (unfold playLoop; rw [if_neg (by simp)])
  · have hl : playLoop (n + 1) g env sequence difficulty p
        = some ⟨Wait (Wait (answerLoop g env sequence p.round
            ⟨answerEntry env sequence p, 0, 0⟩).hw TEN_MS) TEN_MS, 0, p.round⟩ := by
      rw [playLoop, if_pos hs, playPass_wrong g env sequence difficulty p _ hr hg]
      simp only
      cases n <;> (unfold playLoop; rw [if_neg (by simp)])
    refine ⟨_, by unfold playFrom; rw [hl]; rfl, ?_⟩
    have hc4 := (GetAnswer_ret _ _ _ _ _ _ _ hg).2
    rw [answerEntry_calls] at hc4
    unfold endGame
    rw [if_neg (by simp)]
    simp [hc4]

/-- C5 on the all-red sequence with the green button held: the first comparison finds
green where red is expected, and the game ends with `Loss`. -/
theorem C5_wrong_press_ends_game_witness :
    ∃ hwEnd, playFrom 1 1 greenHeld allRed 8 ⟨fastBoard, 1, 0⟩ = some hwEnd ∧
      hwEnd.calls = [Call.BlinkLeds 0, Call.GetAnswer 0, Call.Loss] :=
  let ⟨_, _, _, h⟩ := C5_wrong_press_ends_game 0 1 greenHeld allRed 8 ⟨fastBoard, 1, 0⟩
    [⟨.GREEN, 1, 0, 156⟩] ⟨.GREEN, 1, 0, 156⟩ rfl (by decide) (by decide) (by simp) (by decide)
  h

theorem roundCalls_blink (m r : Nat) (h : Call.BlinkLeds r ∈ roundCalls m) : r < m := by
  induction m with
  | zero => simp [roundCalls] at h
  | succ m ih =>
    simp only [roundCalls, List.mem_append, List.mem_cons, Call.BlinkLeds.injEq,
      List.mem_singleton, List.mem_nil_iff, or_false] at h
    rcases h with h | h | h | h
    · have := ih h; omega
    · omega
    · cases h
    · cases h

theorem roundCalls_answer (m r : Nat) (h : Call.GetAnswer r ∈ roundCalls m) : r < m := by
  induction m with
  | zero => simp [roundCalls] at h
  | succ m ih =>
    simp only [roundCalls, List.mem_append, List.mem_cons, Call.GetAnswer.injEq,
      List.mem_singleton, List.mem_nil_iff, or_false] at h
    rcases h with h | h | h | h
    · have := ih h; omega
    · cases h
    · omega
    · cases h

theorem roundCalls_correct (m : Nat) : (roundCalls m).count Call.CorrectAnswer = m := by
  induction m with
  | zero => rfl
  | succ m ih =>
    rw [roundCalls, List.count_append, ih]
    rfl

theorem roundCalls_win (m : Nat) : Call.Win ∉ roundCalls m := by
  induction m with
  | zero => simp [roundCalls]
  | succ m ih => simp [roundCalls, ih]

/-- A game that comes to its end: its calls are the rounds `0` to `m - 1`, each
answered correctly, followed either by `Win` with `m = d` or by the playback and the
answer of round `m < d` and `Loss`. -/
theorem playGame_finished (n g : Nat) (env : Env) (hw1 hwEnd : Hw) (sequence : List Int)
    (d : Nat) (hrange : 0 < d ∧ d ≤ 16)
    (hg : playGame n g env hw1 sequence d = some hwEnd) :
    ∃ new m, hwEnd.calls = hw1.calls ++ new ∧ m ≤ d ∧
      ((m = d ∧ new = roundCalls d ++ [Call.Win]) ∨
        (m < d ∧ new = roundCalls m ++ [Call.BlinkLeds m, Call.GetAnswer m, Call.Loss])) ∧
      (∀ r, Call.BlinkLeds r ∈ new ∨ Call.GetAnswer r ∈ new → r < d) ∧
      (Call.Win ∈ new ↔ new.count Call.CorrectAnswer = d) ∧
      new.count Call.CorrectAnswer ≤ d := by
  unfold playGame playFrom at hg
  cases hl : playLoop n g env sequence d ⟨hw1, 1, 0⟩ with
  | none => rw [hl] at hg; exact absurd hg (by simp)
  | some pEnd =>
    rw [hl] at hg
    simp only [Option.map_some', Option.some.injEq] at hg
    subst hg
    rcases playLoop_spec g env sequence d hw1.calls n ⟨hw1, 1, 0⟩ pEnd rfl hrange.1
      (by simp [roundCalls]) hl with ⟨h2, _, hc⟩ | ⟨h0, hm, hc⟩
    · refine ⟨roundCalls d ++ [Call.Win], d, ?_, le_refl d, Or.inl ⟨rfl, rfl⟩, ?_, ?_, ?_⟩
      · unfold endGame
        rw [if_pos h2]
        simp [hc]
      · intro r hr
        simp only [List.mem_append, List.mem_singleton] at hr
        rcases hr with (hr | hr) | (hr | hr)
        · exact roundCalls_blink d r hr
        · cases hr
        · exact roundCalls_answer d r hr
        · cases hr
      · rw [List.count_append, roundCalls_correct]
        simp
      · rw [List.count_append, roundCalls_correct]
        simp
    · refine ⟨roundCalls pEnd.round
          ++ [Call.BlinkLeds pEnd.round, Call.GetAnswer pEnd.round, Call.Loss],
        pEnd.round, ?_, by omega, Or.inr ⟨hm, rfl⟩, ?_, ?_, ?_⟩
      · unfold endGame
        rw [if_neg (by omega)]
        simp [hc]
      · intro r hr
        simp only [List.mem_append, List.mem_cons, Call.BlinkLeds.injEq, Call.GetAnswer.injEq,
          List.mem_singleton, List.mem_nil_iff, or_false] at hr
        rcases hr with (hr | hr | hr | hr) | (hr | hr | hr | hr)
        · have := roundCalls_blink _ r hr; omega
        · omega
        · cases hr
        · cases hr
        · have := roundCalls_answer _ r hr; omega
        · cases hr
        · omega
        · cases hr
      · rw [List.count_append, roundCalls_correct]
        have hw : Call.Win ∉ roundCalls pEnd.round
            ++ [Call.BlinkLeds pEnd.round, Call.GetAnswer pEnd.round, Call.Loss] := by
          simp [roundCalls_win]
        have hcnt : List.count Call.CorrectAnswer
            [Call.BlinkLeds pEnd.round, Call.GetAnswer pEnd.round, Call.Loss] = 0 := by
          simp
        rw [hcnt]
        constructor
        · intro h; exact absurd h hw
        · intro h; omega
      · rw [List.count_append, roundCalls_correct]
        have hcnt : List.count Call.CorrectAnswer
            [Call.BlinkLeds pEnd.round, Call.GetAnswer pEnd.round, Call.Loss] = 0 := by
          simp
        omega

/-- C6: for the difficulty `d` returned by `ChooseDifficulty`, `0 < d ≤ 16`, and
(1) after any number of passes of the play loop, whether or not the game comes to an
end, either the loop goes on (`game_state = 1`) with `round < d`, the rounds
`0, ..., round - 1` behind it each answered correctly, and its next pass calls
`BlinkLeds` and `GetAnswer` with this `round`; or it has ended with `game_state = 2`,
`round = d` and `CorrectAnswer` run `d` times; or it has ended with `game_state = 0` in
a round `< d` whose answer was wrong;
(2) when `GetAnswer` returns 1 in each of the rounds `0, ..., d - 1`, the game comes to
its end, given `d` passes or more, having called `CorrectAnswer` `d` times and then
`Win`;
(3) when `GetAnswer` returns 1 in the rounds before `m < d` and 0 in round `m`, the game
comes to its end with `Loss` after `m` correct rounds, without `Win`;
(4) every game that comes to its end has called `BlinkLeds` and `GetAnswer` with
`round < d` only, ends with `Win` exactly when `CorrectAnswer` has run `d` times, and
has run `CorrectAnswer` at most `d` times. -/
theorem C6_rounds_and_win (k g : Nat) (env : Env) (hw0 hw1 : Hw) (sequence : List Int)
    (d : Nat) (hd : ChooseDifficulty k env hw0 = some (d, hw1)) :
    0 < d ∧ d ≤ 16 ∧
    (∀ m,
      ((playPasses g env sequence d m ⟨hw1, 1, 0⟩).game_state = 1 ∧
        (playPasses g env sequence d m ⟨hw1, 1, 0⟩).round < d ∧
        (playPasses g env sequence d m ⟨hw1, 1, 0⟩).hw.calls
          = hw1.calls ++ roundCalls (playPasses g env sequence d m ⟨hw1, 1, 0⟩).round ∧
        (answerEntry env sequence (playPasses g env sequence d m ⟨hw1, 1, 0⟩)).calls
          = (playPasses g env sequence d m ⟨hw1, 1, 0⟩).hw.calls
            ++ [Call.BlinkLeds (playPasses g env sequence d m ⟨hw1, 1, 0⟩).round,
                Call.GetAnswer (playPasses g env sequence d m ⟨hw1, 1, 0⟩).round]) ∨
      ((playPasses g env sequence d m ⟨hw1, 1, 0⟩).game_state = 2 ∧
        (playPasses g env sequence d m ⟨hw1, 1, 0⟩).round = d ∧
        (playPasses g env sequence d m ⟨hw1, 1, 0⟩).hw.calls = hw1.calls ++ roundCalls d) ∨
      ((playPasses g env sequence d m ⟨hw1, 1, 0⟩).game_state = 0 ∧
        (playPasses g env sequence d m ⟨hw1, 1, 0⟩).round < d ∧
        (playPasses g env sequence d m ⟨hw1, 1, 0⟩).hw.calls
          = hw1.calls ++ roundCalls (playPasses g env sequence d m ⟨hw1, 1, 0⟩).round
            ++ [Call.BlinkLeds (playPasses g env sequence d m ⟨hw1, 1, 0⟩).round,
                Call.GetAnswer (playPasses g env sequence d m ⟨hw1, 1, 0⟩).round])) ∧
    ((∀ r, r < d → (GetAnswer g env
        (answerEntry env sequence (playPasses g env sequence d r ⟨hw1, 1, 0⟩)) sequence r).map
          Prod.fst = some 1) →
      ∀ n, d ≤ n → ∃ hwEnd, playGame n g env hw1 sequence d = some hwEnd ∧
        hwEnd.calls = hw1.calls ++ roundCalls d ++ [Call.Win] ∧
        (roundCalls d).count Call.CorrectAnswer = d) ∧
    (∀ m, m < d →
      (∀ r, r < m → (GetAnswer g env
        (answerEntry env sequence (playPasses g env sequence d r ⟨hw1, 1, 0⟩)) sequence r).map
          Prod.fst = some 1) →
      (GetAnswer g env
        (answerEntry env sequence (playPasses g env sequence d m ⟨hw1, 1, 0⟩)) sequence m).map
          Prod.fst = some 0 →
      ∀ n, m < n → ∃ hwEnd, playGame n g env hw1 sequence d = some hwEnd ∧
        hwEnd.calls = hw1.calls ++ roundCalls m
          ++ [Call.BlinkLeds m, Call.GetAnswer m, Call.Loss] ∧
        Call.Win ∉ hwEnd.calls.drop hw1.calls.length) ∧
    (∀ n hwEnd, playGame n g env hw1 sequence d = some hwEnd →
      ∃ new m, hwEnd.calls = hw1.calls ++ new ∧ m ≤ d ∧
        ((m = d ∧ new = roundCalls d ++ [Call.Win]) ∨
          (m < d ∧ new = roundCalls m ++ [Call.BlinkLeds m, Call.GetAnswer m, Call.Loss])) ∧
        (∀ r, Call.BlinkLeds r ∈ new ∨ Call.GetAnswer r ∈ new → r < d) ∧
        (Call.Win ∈ new ↔ new.count Call.CorrectAnswer = d) ∧
        new.count Call.CorrectAnswer ≤ d) := by
  obtain ⟨evs, e, _, _, hx, _⟩ := ChooseDifficulty_spec k env hw0 hw1 d hd
  have hrange : 0 < d ∧ d ≤ 16 := by
    rw [hx]; cases e.btn <;> simp [roundsOf, EASY, NORMAL, HARD, EXTREME]
  refine ⟨hrange.1, hrange.2, ?_, ?_, ?_, ?_⟩
  · intro m
    rcases playPasses_inv g env sequence d ⟨hw1, 1, 0⟩ rfl rfl hrange.1 m with
      ⟨a, b, c⟩ | h | h
    · exact Or.inl ⟨a, b, c, answerEntry_calls env sequence _⟩
    · exact Or.inr (Or.inl h)
    · exact Or.inr (Or.inr h)
  · intro hr n hn
    obtain ⟨hwEnd, h1, h2⟩ := playGame_won n g env hw1 sequence d hrange.1 hn hr
    exact ⟨hwEnd, h1, h2, roundCalls_correct d⟩
  · intro m hm hr hwrong n hn
    obtain ⟨hwEnd, h1, h2⟩ := playGame_lost n g env hw1 sequence d m hm hn hr hwrong
    refine ⟨hwEnd, h1, h2, ?_⟩
    rw [h2, List.append_assoc, List.drop_left]
    simp [roundCalls_win]
  · intro n hwEnd hg
    exact playGame_finished n g env hw1 hwEnd sequence d hrange hg

/-- C6 on two games.  With the red button held throughout, `ChooseDifficulty` returns
16 and the game on the all-red sequence is won: rounds 0 to 15, each with its playback,
its answer and `CorrectAnswer`, then `Win`.  With the green button held throughout,
`ChooseDifficulty` returns 8 and the game on the all-red sequence is lost in round 0. -/
theorem C6_rounds_and_win_witness :
    (ChooseDifficulty 1 redHeld fastBoard = some (16, extremeChosen) ∧
      ∃ hwEnd, playGame 16 16 redHeld extremeChosen allRed 16 = some hwEnd ∧
        hwEnd.calls = (List.range 16).flatMap
            (fun r => [Call.BlinkLeds r, Call.GetAnswer r, Call.CorrectAnswer])
          ++ [Call.Win]) ∧
    (ChooseDifficulty 1 greenHeld fastBoard = some (8, easyChosen) ∧
      ∃ hwEnd, playGame 1 1 greenHeld easyChosen allRed 8 = some hwEnd ∧
        hwEnd.calls = [Call.BlinkLeds 0, Call.GetAnswer 0, Call.Loss]) :=
  ⟨⟨by decide,
    let ⟨hwEnd, h1, h2, _⟩ :=
      (C6_rounds_and_win 1 16 redHeld fastBoard extremeChosen allRed 16 (by decide)).2.2.2.1
        (fun r hr => GetAnswer_only 16 redHeld _ allRed r .RED
          (fun t b1 => by
            cases b1 <;>
              simp [down, redHeld, held, RED_BTN, GREEN_BTN, BLUE_BTN, YELLOW_BTN])
          (fun i hi => by
            have h16 : ∀ j, j < 16 → readSeq redHeld allRed j = codeOf .RED := by decide
            exact h16 i (by omega))
          hr)
        16 (le_refl 16)
    ⟨hwEnd, h1, h2.trans (by decide)⟩⟩,
   ⟨by decide,
    let ⟨hwEnd, h1, h2, _⟩ :=
      (C6_rounds_and_win 1 1 greenHeld fastBoard easyChosen allRed 8 (by decide)).2.2.2.2.1
        0 (by decide) (fun r hr => absurd hr (by omega)) (by decide) 1 (by decide)
    ⟨hwEnd, h1, h2.trans (by decide)⟩⟩⟩

/-- C7 as stated fails.  With the green and the blue button held down together,
`ChooseDifficulty` handles both and returns 10, the rounds of the blue button, not
those of the green button, which comes first in the order red, green, blue, yellow.
With the red and the green button held down together and an all-red sequence,
`GetAnswer` in round 0 compares red with `sequence[0]` and then green with
`sequence[1]` in the same pass, and returns 0. -/
theorem C7_later_button_wins :
    (∀ t, down greenBlueHeld t .GREEN ∧ down greenBlueHeld t .BLUE) ∧
    (ChooseDifficulty 1 greenBlueHeld fastBoard).map Prod.fst = some 10 ∧
    (ChooseDifficulty 1 greenBlueHeld fastBoard).map (fun r => r.2.picks.map (fun e => e.btn))
      = some [Btn.GREEN, Btn.BLUE] ∧
    roundsOf .GREEN = 8 ∧
    (∀ t, down redGreenHeld t .RED ∧ down redGreenHeld t .GREEN) ∧
    (GetAnswer 1 redGreenHeld fastBoard allRed 0).map
        (fun r => (r.1, r.2.cmps.map (fun c => (c.btn, c.index))))
      = some (0, [(Btn.RED, 0), (Btn.GREEN, 1)]) := by
  refine ⟨fun t => ⟨?_, ?_⟩, by decide, by decide, rfl, fun t => ⟨?_, ?_⟩, by decide⟩ <;>
    simp [down, greenBlueHeld, redGreenHeld, held, RED_BTN, GREEN_BTN, BLUE_BTN]

/-- C7 (amended): while several buttons are held down together, `ChooseDifficulty`
examines the buttons in the order green, blue, yellow, red, handles every depressed
one in turn, each with its confirmation animation (both port registers written with
the prompt LEDs off, then the LED of the button toggled eight times, `CENTI_SEC`
apart), leaves the prompt LEDs off and returns the rounds of the last depressed button
in that order (red before yellow before blue before green); `GetAnswer` examines the
buttons in the order red, green, blue, yellow, and its first comparison is made for
the first depressed button in that order. -/
theorem C7_scan_order (n : Nat) (env : Env) (hw : Hw) (sequence : List Int) (round : Nat)
    (D : Btn → Bool) (hheld : ∀ t b, down env t b ↔ D b = true) (hsome : ∃ b, D b = true) :
    (∃ hw1, ChooseDifficulty (n + 1) env hw
        = some (if D .RED then EXTREME else if D .YELLOW then HARD else if D .BLUE then NORMAL
            else EASY, hw1) ∧
      hw1.picks.map (fun e => e.btn)
        = hw.picks.map (fun e => e.btn) ++ [Btn.GREEN, Btn.BLUE, Btn.YELLOW, Btn.RED].filter D ∧
      hw1.out = hw.out
        ++ [Out.write .P3OUT (hw.P3OUT ||| GREEN_LED),
            Out.write .P2OUT (hw.P2OUT ||| (BLUE_LED ||| YELLOW_LED))]
        ++ ([Btn.GREEN, Btn.BLUE, Btn.YELLOW, Btn.RED].filter D).flatMap
            (confirmTrace (bic hw.P2OUT (BLUE_LED ||| YELLOW_LED)) (bic hw.P3OUT GREEN_LED)) ∧
      hw1.P2OUT = bic hw.P2OUT (BLUE_LED ||| YELLOW_LED) ∧
      hw1.P3OUT = bic hw.P3OUT GREEN_LED) ∧
    (∀ b, D b = true → (∀ b1, scanRank b1 < scanRank b → D b1 = false) →
      ∃ rest, (answerLoop (n + 1) env sequence round ⟨hw, 0, 0⟩).hw.cmps
        = hw.cmps ++ ⟨b, codeOf b, 0, hw.now + 1⟩ :: rest) := by
  refine ⟨ChooseDifficulty_held n env hw D hheld hsome, ?_⟩
  intro b hb hfirst
  refine answerLoop_first env sequence round n hw b ((hheld _ b).mpr hb) ?_
  intro b1 h1 hdown
  have := (hheld _ b1).mp hdown
  rw [hfirst b1 h1] at this
  exact absurd this (by simp)

/-- C7 (amended) with the green and the blue button held down together: the prompt
(green, blue and yellow LEDs on), then the prompt off and eight toggles of the green
LED (bit 0x08 of P3OUT), then eight toggles of the blue LED (bit 0x40 of P2OUT), and
the value 10. -/
theorem C7_scan_order_witness :
    (∃ hw1, ChooseDifficulty 1 greenBlueHeld fastBoard = some (10, hw1) ∧
      hw1.picks.map (fun e => e.btn) = [Btn.GREEN, Btn.BLUE] ∧
      hw1.out = [Out.write .P3OUT 0x0B, Out.write .P2OUT 0xC8,
        Out.write .P3OUT 0x03, Out.write .P2OUT 0x08,
        Out.write .P3OUT 0x0B, Out.wait 10, Out.write .P3OUT 0x03, Out.wait 10,
        Out.write .P3OUT 0x0B, Out.wait 10, Out.write .P3OUT 0x03, Out.wait 10,
        Out.write .P3OUT 0x0B, Out.wait 10, Out.write .P3OUT 0x03, Out.wait 10,
        Out.write .P3OUT 0x0B, Out.wait 10, Out.write .P3OUT 0x03, Out.wait 10,
        Out.write .P3OUT 0x03, Out.write .P2OUT 0x08,
        Out.write .P2OUT 0x48, Out.wait 10, Out.write .P2OUT 0x08, Out.wait 10,
        Out.write .P2OUT 0x48, Out.wait 10, Out.write .P2OUT 0x08, Out.wait 10,
        Out.write .P2OUT 0x48, Out.wait 10, Out.write .P2OUT 0x08, Out.wait 10,
        Out.write .P2OUT 0x48, Out.wait 10, Out.write .P2OUT 0x08, Out.wait 10] ∧
      hw1.P2OUT = 0x08 ∧ hw1.P3OUT = 0x03) ∧
    ∃ rest, (answerLoop 1 greenBlueHeld allRed 0 ⟨fastBoard, 0, 0⟩).hw.cmps
      = ⟨.GREEN, 1, 0, 1⟩ :: rest :=
  let h := C7_scan_order 0 greenBlueHeld fastBoard allRed 0
    (fun b => decide (b = .GREEN ∨ b = .BLUE))
    (fun t b => by
      cases b <;> simp [down, greenBlueHeld, held, RED_BTN, GREEN_BTN, BLUE_BTN, YELLOW_BTN])
    ⟨.GREEN, by decide⟩
  ⟨h.1, h.2 .GREEN (by decide) (fun b1 hb1 => by cases b1 <;> first | rfl | exact absurd hb1 (by decide))⟩

/-- C8 as stated fails: the red button is pressed at time 0, held for 40 timer periods
and released, no other button is touched, and the sequence is all red.  `GetAnswer` in
round 1 counts this one depression twice: it is compared with `sequence[0]` at time 1
and with `sequence[1]` at time 28, `i` goes up to 2 and the round is accepted. -/
theorem C8_long_press_counted_twice :
    depression longPress .RED 0 40 ∧
    (∀ t b, b ≠ .RED → ¬ down longPress t b) ∧
    (answerLoop 2 longPress allRed 1 ⟨fastBoard, 0, 0⟩).hw.cmps
      = [⟨.RED, 0, 0, 1⟩, ⟨.RED, 0, 1, 28⟩] ∧
    (answerLoop 2 longPress allRed 1 ⟨fastBoard, 0, 0⟩).i = 2 ∧
    (GetAnswer 2 longPress fastBoard allRed 1).map Prod.fst = some 1 := by
  refine ⟨⟨by decide, fun t _ h => ?_, ?_⟩, fun t b hb => ?_, by decide, by decide, by decide⟩
  · simp [down, longPress, RED_BTN, h]
  · simp [down, longPress, RED_BTN]
  · cases b <;> simp [down, longPress, GREEN_BTN, BLUE_BTN, YELLOW_BTN] at hb ⊢

/-- C8 (amended): in `GetAnswer` a comparison is made only for a button whose line
reads 0 at that time; the first comparison is made with `i = 0`, each comparison leaves
`i` as it was or moves it up by one, so `i` is at most the number of comparisons; and
after a comparison no other comparison is made for 24 timer periods (`QUART_SEC` less
one period): the window of 24 periods that starts at a comparison holds that comparison
only.  So a continuous depression of a button that is released within 24 timer periods
of the first poll that found it causes exactly one comparison for that button. -/
theorem C8_debounce (env : Env) (sequence : List Int) (round n : Nat) (hw : Hw) :
    ∃ evs, (answerLoop n env sequence round ⟨hw, 0, 0⟩).hw.cmps = hw.cmps ++ evs ∧
      (∀ c ∈ evs, down env c.time c.btn) ∧
      evs.Chain' (fun a b => a.index ≤ b.index ∧ b.index ≤ a.index + 1) ∧
      (∀ c ∈ evs.head?, c.index = 0) ∧
      (∀ c ∈ evs.getLast?, c.index ≤ (answerLoop n env sequence round ⟨hw, 0, 0⟩).i ∧
        (answerLoop n env sequence round ⟨hw, 0, 0⟩).i ≤ c.index + 1) ∧
      (answerLoop n env sequence round ⟨hw, 0, 0⟩).i ≤ evs.length ∧
      (∀ c ∈ evs, evs.countP
          (fun e => decide (c.time ≤ e.time ∧ e.time ≤ c.time + 24 * period hw)) = 1) ∧
      (∀ (b : Btn) (a r : Nat), depression env b a r →
        ∀ c ∈ evs, c.btn = b → a ≤ c.time → c.time < r →
          (∀ e ∈ evs, e.btn = b → a ≤ e.time → c.time ≤ e.time) →
          r ≤ c.time + 24 * period hw + 1 →
          evs.countP (fun e => decide (e.btn = b ∧ a ≤ e.time ∧ e.time < r)) = 1) := by
  obtain ⟨evs, h1, h2, h3, h4⟩ := answerLoop_debounce env sequence round n hw
  obtain ⟨evs1, k1, k2, k3, k4⟩ := answerLoop_steps env sequence round n hw
  have he : evs1 = evs := List.append_cancel_left (k1.symm.trans h1)
  subst he
  refine ⟨evs1, h1, h3, k2, k3, k4, h4, window_single _ evs1 h2, ?_⟩
  intro b a r _ c hc hb ha hr hfirst hrel
  refine countP_single (24 * period hw) _ evs1 h2 c hc (by simp [hb, ha, hr]) ?_
  intro e he hq
  simp only [decide_eq_true_eq] at hq
  have := hfirst e he hq.1 hq.2.1
  omega

/-- C8 (amended) on a press of 20 timer periods: the red button is pressed at time 0
and released at time 20; `GetAnswer` in round 1 goes on polling after the release and
has made one comparison only. -/
theorem C8_debounce_witness :
    depression shortPress .RED 0 20 ∧
    ∃ evs, (answerLoop 3 shortPress allRed 1 ⟨fastBoard, 0, 0⟩).hw.cmps = evs ∧
      evs = [⟨.RED, 0, 0, 1⟩] ∧
      evs.countP (fun e => decide (e.btn = .RED ∧ 0 ≤ e.time ∧ e.time < 20)) = 1 :=
  have hdep : depression shortPress .RED 0 20 :=
    ⟨by decide, fun t _ h => by simp [down, shortPress, RED_BTN, h],
      by simp [down, shortPress, RED_BTN]⟩
  have hc : (answerLoop 3 shortPress allRed 1 ⟨fastBoard, 0, 0⟩).hw.cmps = [⟨.RED, 0, 0, 1⟩] := by
    decide
  let ⟨evs, h1, _, _, _, _, _, _, h8⟩ := C8_debounce shortPress allRed 1 3 fastBoard
  have he : evs = [⟨.RED, 0, 0, 1⟩] := by
    have h := h1.symm.trans hc
    simpa [fastBoard, boot] using h
  ⟨hdep, evs, by rw [h1]; rfl, he,
    h8 .RED 0 20 hdep ⟨.RED, 0, 0, 1⟩ (by rw [he]; simp) rfl (by decide) (by decide)
      (fun e hem _ _ => by
        rw [he] at hem
        simp only [List.mem_singleton] at hem
        rw [hem])
      (by decide)⟩

/-- Place `j` of a sequence built from two 16-bit samples holds the colour code of the
LED that bit `15 - j` of the two samples selects. -/
theorem buildSequence_colour (f s j : Nat) (hf : f < 65536) (hs : s < 65536) (hj : j < 16) :
    ∃ v, (buildSequence f s)[j]? = some v ∧ ledOf v = some (colourAt f s j) ∧
      colourAt f s j ≠ Led.P9_GREEN := by
  have h := MakeSequence_getElem (List.replicate 16 0) f s j (by simp) hf hs hj
  refine ⟨_, h, ?_⟩
  have ha : (f >>> (15 - j)) &&& 1 = 0 ∨ (f >>> (15 - j)) &&& 1 = 1 := by
    rw [Nat.and_one_is_mod]; omega
  have hb : (s >>> (15 - j)) &&& 1 = 0 ∨ (s >>> (15 - j)) &&& 1 = 1 := by
    rw [Nat.and_one_is_mod]; omega
  rcases ha with ha | ha <;> rcases hb with hb | hb <;> simp [colourAt, ledOf, ha, hb]

@[simp] theorem ledOn_now (l : Led) (hw : Hw) : (ledOn l hw).now = hw.now := by
  cases l <;> rfl

@[simp] theorem ledOff_now (l : Led) (hw : Hw) : (ledOff l hw).now = hw.now := by
  cases l <;> rfl

@[simp] theorem ledOn_TA0CCR0 (l : Led) (hw : Hw) : (ledOn l hw).TA0CCR0 = hw.TA0CCR0 := by
  cases l <;> rfl

@[simp] theorem ledOff_TA0CCR0 (l : Led) (hw : Hw) : (ledOff l hw).TA0CCR0 = hw.TA0CCR0 := by
  cases l <;> rfl

/-- A pulse lasts more than `BLINK - 1 + PAUSE - 1 = 48` timer periods. -/
theorem pulse_now (l : Led) (hw : Hw) :
    (pulse l hw).TA0CCR0 = hw.TA0CCR0 ∧ hw.now + 48 * period hw + 2 ≤ (pulse l hw).now := by
  have hB : BLINK = ((20 : Nat) : Int) := rfl
  have hP : PAUSE = ((30 : Nat) : Int) := rfl
  unfold pulse
  rw [hB, hP]
  have h1 := Wait_now_ge (ledOn l hw) 20 (by omega)
  have h2 := Wait_now_ge (ledOff l (Wait (ledOn l hw) ((20 : Nat) : Int))) 30 (by omega)
  simp only [period, Wait_TA0CCR0, ledOn_TA0CCR0, ledOff_TA0CCR0, ledOn_now, ledOff_now]
    at h1 h2 ⊢
  exact ⟨trivial, by omega⟩

/-- The do-while loop of `BlinkLeds` lasts more than 48 timer periods for each of its
passes. -/
theorem BlinkLoop_now (env : Env) (sequence : List Int) (round : Nat) (col : Nat → Led)
    (hcol : ∀ j, j ≤ round → ledOf (readSeq env sequence j) = some (col j)) :
    ∀ (passes : Nat) (hw : Hw) (i : Nat), i + passes = round + 1 → 0 < passes →
      hw.now + passes * (48 * period hw) < (BlinkLoop passes env hw sequence i round).now := by
  intro passes
  induction passes with
  | zero => intro hw i _ h; omega
  | succ k ih =>
    intro hw i hik _
    unfold BlinkLoop
    simp only
    rw [blinkCase_eq _ _ _ (hcol i (by omega))]
    obtain ⟨hc, hn⟩ := pulse_now (col i) hw
    have hp : period (pulse (col i) hw) = period hw := by simp [period, hc]
    have hmul : (k + 1) * (48 * period hw) = k * (48 * period hw) + 48 * period hw := by ring
    by_cases hle : i + 1 ≤ round
    · rw [if_pos hle]
      have := ih (pulse (col i) hw) (i + 1) (by omega) (by omega)
      rw [hp] at this
      omega
    · rw [if_neg hle]
      have hk : k = 0 := by omega
      subst hk
      omega

/-- C9: for two 16-bit samples `f`, `s` and a round `r` in 0..15, `BlinkLeds` on the
sequence built from `f` and `s` makes exactly the `r + 1` pulses for places 0 to `r`,
in this order, and no other write to an output register: pulse `j` is for the LED whose
colour code is `sequence[j]` (0 red, 1 green, 3 blue, 4 yellow; the colour that bit
`15 - j` of `f` and of `s` select); it writes the register of that LED with the bit of
the LED set, calls `Wait(BLINK)`, writes the register with the bit cleared and calls
`Wait(PAUSE)`.  The call lasts more than 48 timer periods for each pulse, and an LED
that is off at entry is off at return. -/
theorem C9_BlinkLeds_pulses (env : Env) (hw : Hw) (f s r : Nat)
    (hf : f < 65536) (hs : s < 65536) (hr : r < 16) :
    (BlinkLeds env hw (buildSequence f s) r).out
        = hw.out ++ pulsesTrace ((List.range (r + 1)).map (colourAt f s)) hw.P2OUT hw.P3OUT ∧
    (∀ j, j ≤ r → ∃ v, (buildSequence f s)[j]? = some v ∧ ledOf v = some (colourAt f s j) ∧
        colourAt f s j ≠ Led.P9_GREEN) ∧
    hw.now + (r + 1) * (48 * period hw) < (BlinkLeds env hw (buildSequence f s) r).now ∧
    (∀ l, isOff hw l → isOff (BlinkLeds env hw (buildSequence f s) r) l) := by
  have hcol : ∀ j, j ≤ r →
      ledOf (readSeq env (buildSequence f s) j) = some (colourAt f s j) := by
    intro j hj
    obtain ⟨v, h1, h2, _⟩ := buildSequence_colour f s j hf hs (by omega)
    unfold readSeq
    rw [h1]
    exact h2
  have hled : ∀ j, colourAt f s j ≠ Led.P9_GREEN := by
    intro j
    unfold colourAt
    split_ifs <;> simp
  refine ⟨BlinkLeds_out env hw _ r (colourAt f s) hcol hled, ?_, ?_, ?_⟩
  · intro j hj
    exact buildSequence_colour f s j hf hs (by omega)
  · exact BlinkLoop_now env _ r (colourAt f s) hcol (r + 1) hw 0 (by omega) (by omega)
  · intro l hl
    exact BlinkLoop_isOff env _ r l (r + 1) hw 0 hl

/-- C9 for the samples 0x5555 and 0xAAAA in round 1, on a board with the registers as
`main` sets them up (`P2OUT = 0x08`, `P3OUT = 0x03`): a pulse of the blue LED (bit 0x40
of `P2OUT`), then a pulse of the green LED (bit 0x08 of `P3OUT`). -/
theorem C9_BlinkLeds_pulses_witness :
    (BlinkLeds redHeld fastBoard (buildSequence 0x5555 0xAAAA) 1).out
      = [Out.write .P2OUT 0x48, Out.wait 20, Out.write .P2OUT 0x08, Out.wait 30,
         Out.write .P3OUT 0x0B, Out.wait 20, Out.write .P3OUT 0x03, Out.wait 30] :=
  (C9_BlinkLeds_pulses redHeld fastBoard 0x5555 0xAAAA 1 (by decide) (by decide) (by decide)).1

/-- C10 fails on the code: in round 15 with the all-red sequence, the red button held
down and the green button depressed as well from time 410 on, the sixteenth press of
red completes the round at time 406 with `i = 16`, and in the same pass of the loop
`GetAnswer` finds the green button depressed at time 432 and reads `sequence[16]`,
one element past the end of the 16-element array. -/
theorem C10_read_past_end :
    allRed.length = 16 ∧
    (answerLoop 16 lateGreen allRed 15 ⟨fastBoard, 0, 0⟩).hw.cmps.length = 17 ∧
    (answerLoop 16 lateGreen allRed 15 ⟨fastBoard, 0, 0⟩).hw.cmps.getLast?
      = some ⟨.GREEN, 1, 16, 432⟩ ∧
    allRed[16]? = none := by
  decide

end MemoryGame
